import Mathlib

/-!
Verification development for the LeadAnalysis repository.

The Python sources under `lead_qualifier/` and `scripts/` are shallowly
embedded below: pure functions become Lean functions over `String` /
`List Char`, machine reals (Python floats) are modelled by `ℚ` (all the
constants involved — pattern weights divided by 10, the fixed scoring
weight table — are exactly representable, and every comparison appearing
in the claims happens at points where float and rational semantics
agree), and fallible code returns `Option` / `Except`.

String scanning mirrors the concrete regular expressions of the source
(`email_filter.py`, `company_extractor.py`, `rules.py`,
`extraction_agent.py`); each scanner is written as a structurally
recursive function (fuel = input length) so that every definition
evaluates inside the kernel.
-/

namespace LeadAnalysis

/-! ## Character and string utilities (CPython string semantics, ASCII) -/

/-- Python `str.lower` restricted to ASCII (all inputs in this development
are ASCII; `A`–`Z` map to `a`–`z`, everything else is fixed). -/
def pyLowerChar (c : Char) : Char :=
  if 'A' ≤ c ∧ c ≤ 'Z' then Char.ofNat (c.toNat + 32) else c

def lowerL (s : List Char) : List Char := s.map pyLowerChar

/-- Python `\s` / `str.strip` whitespace: space, tab, newline, carriage
return, vertical tab, form feed. -/
def pySpace (c : Char) : Bool :=
  c = ' ' || c = '\t' || c = '\n' || c = '\x0d' || c = '\x0b' || c = '\x0c'

/-- Python word character for `\b` boundaries: `[a-zA-Z0-9_]` (ASCII). -/
def isWordChar (c : Char) : Bool :=
  ('a' ≤ c && c ≤ 'z') || ('A' ≤ c && c ≤ 'Z') || ('0' ≤ c && c ≤ '9') || c = '_'

def dropWhileL (p : Char → Bool) (s : List Char) : List Char := s.dropWhile p

/-- Python `str.strip()` (no argument): remove leading and trailing whitespace. -/
def pyStripL (s : List Char) : List Char :=
  ((dropWhileL pySpace s).reverse.dropWhile pySpace).reverse

/-- Python `str.strip(chars)`: remove leading and trailing characters drawn
from the given set. -/
def pyStripSet (cut : List Char) (s : List Char) : List Char :=
  ((s.dropWhile (cut.contains ·)).reverse.dropWhile (cut.contains ·)).reverse

/-- `needle` occurs as a contiguous substring of `hay` (Python `in`). -/
def strContainsL : List Char → List Char → Bool
  | _, [] => true
  | [], _ :: _ => false
  | c :: hs, needle => needle.isPrefixOf (c :: hs) || strContainsL hs needle

def strContains (hay needle : String) : Bool := strContainsL hay.toList needle.toList

/-- Python `str.endswith`. -/
def endsWithL (s suffix : List Char) : Bool := suffix.isSuffixOf s

/-- Python `str.startswith`. -/
def startsWithL (s pre : List Char) : Bool := pre.isPrefixOf s

/-- Fuel-driven worker for `collapseWs` (structural recursion on the fuel,
which starts at the length of the string, so it never runs dry). -/
def collapseWsAux : Nat → List Char → List Char
  | 0, _ => []
  | _ + 1, [] => []
  | n + 1, c :: rest =>
    if pySpace c then ' ' :: collapseWsAux n (rest.dropWhile pySpace)
    else c :: collapseWsAux n rest

/-- Collapse each maximal run of whitespace to a single space
(CPython `re.sub(r"\s+", " ", s)`). -/
def collapseWs (s : List Char) : List Char := collapseWsAux s.length s

/-- Fuel-driven worker for `pySplitWs`. -/
def pySplitWsAux : Nat → List Char → List (List Char)
  | 0, _ => []
  | _ + 1, [] => []
  | n + 1, c :: rest =>
    if pySpace c then pySplitWsAux n rest
    else
      ((c :: rest).takeWhile (fun x => !pySpace x)) ::
        pySplitWsAux n (rest.dropWhile (fun x => !pySpace x))

/-- Python `str.split()` (no argument): split on whitespace runs, dropping
empty fields. -/
def pySplitWs (s : List Char) : List (List Char) := pySplitWsAux s.length s

/-- Split at every occurrence of the separator character (Python
`str.split(sep)` for a one-character separator, unlimited). -/
def splitOnChar (sep : Char) (s : List Char) : List (List Char) :=
  s.splitOn sep

/-- Intercalate with a one-character separator (Python `sep.join`). -/
def joinWith (sep : Char) : List (List Char) → List Char
  | [] => []
  | [t] => t
  | t :: rest => t ++ sep :: joinWith sep rest

/-! ## Exact rational arithmetic, kernel-evaluable

Python floats are modelled by `ℚ`. The field operations of `ℚ` do not
reduce inside the Lean kernel, so the embedding builds every rational
value through `Rat.divInt` / `mkRat` / `Rat.blt`, which do; the lemmas
`qAdd_eq`, `qMul_eq`, `qDiv_eq`, `qMin_eq`, `qMax_eq` (below, with the
theorems) restore the ordinary field form for symbolic reasoning. -/

/-- `a + b` on `ℚ` via cross multiplication. -/
def qAdd (a b : ℚ) : ℚ :=
  Rat.divInt (a.num * (b.den : ℤ) + b.num * (a.den : ℤ)) ((a.den : ℤ) * (b.den : ℤ))

/-- `a * b` on `ℚ`. -/
def qMul (a b : ℚ) : ℚ := Rat.divInt (a.num * b.num) ((a.den : ℤ) * (b.den : ℤ))

/-- `a / b` on `ℚ`. -/
def qDiv (a b : ℚ) : ℚ := Rat.divInt (a.num * (b.den : ℤ)) ((a.den : ℤ) * b.num)

/-- Python `max(a, b)` (first argument on ties). -/
def qMax (a b : ℚ) : ℚ := if Rat.blt a b then b else a

/-- Python `min(a, b)` (first argument on ties). -/
def qMin (a b : ℚ) : ℚ := if Rat.blt b a then b else a

/-- `⌊y + 1/2⌋` via integer floor division: round-half-up. Python's
`round` rounds half to even, but every value rounded in this development
is an exact multiple of the rounded digit (the weight table is in
twentieths), so no half ever reaches the tie-breaking rule. -/
def qRound (y : ℚ) : ℤ := Int.fdiv (2 * y.num + (y.den : ℤ)) (2 * (y.den : ℤ))

/-- Python `round(x, n)` under the exactness caveat of `qRound`. -/
def roundTo (n : Nat) (x : ℚ) : ℚ :=
  mkRat (qRound (Rat.divInt (x.num * (((10 : ℕ) ^ n : ℕ) : ℤ)) (x.den : ℤ))) ((10 : ℕ) ^ n)

/-! ## `lead_qualifier/utils/normalize.py` -/

/-- The legal-entity suffix token list `_SUFFIXES` of `normalize.py`. -/
def SUFFIXES : List (List Char) :=
  ["pvt", "pvt.", "ltd", "ltd.", "private", "limited", "llp", "inc", "inc.",
   "corp", "corp.", "co", "co.", "company"].map String.toList

/-- Characters kept by `re.sub(r"[^a-z0-9&.\- ]+", " ", s)` (the earlier
bracket substitution maps brackets to spaces, which that same class also
does, so one pass suffices). -/
def keptByNormalize (c : Char) : Bool :=
  ('a' ≤ c && c ≤ 'z') || ('0' ≤ c && c ≤ '9') || c = '&' || c = '.' || c = '-' || c = ' '

/-- Pop trailing tokens while the last one is a legal-entity suffix
(the `while tokens and tokens[-1] in _SUFFIXES: tokens.pop()` loop,
expressed on the reversed token list). -/
def dropSuffixTokensRev : List (List Char) → List (List Char)
  | [] => []
  | t :: rest => if SUFFIXES.contains t then dropSuffixTokensRev rest else t :: rest

/-- `normalize_company_name` from `normalize.py`: the identity-key
canonicalizer. -/
def normalize_company_name (name : String) : String :=
  let s := pyStripL (lowerL name.toList)
  let s := s.map (fun c => if keptByNormalize c then c else ' ')
  let s := pyStripL (collapseWs s)
  let tokens := (dropSuffixTokensRev (pySplitWs s).reverse).reverse
  let s := joinWith ' ' tokens
  let s := pyStripL s
  let s := s.flatMap (fun c => if c = '&' then "and".toList else [c])
  let s := pyStripL (collapseWs s)
  String.mk s

/-- `clean_display_name` from `normalize.py`: trim and collapse whitespace
only. -/
def clean_display_name (name : String) : String :=
  String.mk (collapseWs (pyStripL name.toList))

/-! ## `lead_qualifier/extraction/email_filter.py` -/

def PRIMARY_KEYWORDS : List String :=
  ["internship", "intern", "hiring", "we are hiring",
   "job opening", "opening", "vacancy", "role", "position",
   "interview", "shortlisted", "shortlist", "selection",
   "recruitment", "recruiter", "talent acquisition",
   "practice school", "ps", "campus hiring", "placement"]

def SECONDARY_KEYWORDS : List String :=
  ["apply", "application", "opportunity", "career", "careers"]

def JOB_EVIDENCE : List String :=
  ["resume", "cv", "curriculum vitae",
   "job description", "jd", "responsibilities", "requirements",
   "stipend", "ctc", "compensation", "salary",
   "joining", "start date", "duration", "eligibility",
   "assessment", "coding test", "oa", "interview"]

/-- `EXCLUDE_SUBJECT_PATTERNS`: each regex is of the shape
`\b<literal>\b`; the pair stores (the literal, the raw pattern text used
in the rejection reason). -/
def EXCLUDE_SUBJECT_PATTERNS : List (String × String) :=
  [("debited", "\\bdebited\\b"), ("credited", "\\bcredited\\b"),
   ("otp", "\\botp\\b"), ("statement", "\\bstatement\\b"),
   ("invoice", "\\binvoice\\b"), ("order", "\\border\\b"),
   ("delivered", "\\bdelivered\\b"), ("shipment", "\\bshipment\\b"),
   ("newsletter", "\\bnewsletter\\b"), ("digest", "\\bdigest\\b"),
   ("confirmation", "\\bconfirmation\\b"),
   ("reset password", "\\breset password\\b"),
   ("verification code", "\\bverification code\\b"),
   ("transaction", "\\btransaction\\b"), ("offer", "\\boffer\\b"),
   ("discount", "\\bdiscount\\b"), ("sale", "\\bsale\\b")]

def AGGREGATOR_DOMAINS : List String :=
  ["naukri.com", "linkedin.com", "indeed.com", "internshala.com",
   "glassdoor.com", "shine.com", "foundit.in", "monster.com", "lnkd.in"]

def NEWSLETTER_SIGNALS : List String :=
  ["unsubscribe", "manage preferences", "view in browser",
   "promotional", "you received this email because"]

/-- Does a `\b`-delimited occurrence of `needle` start right here?
`prev` is the character before the current position (`none` at the start
of the string). Every pattern in `EXCLUDE_SUBJECT_PATTERNS` begins and
ends with a word character, so the two boundary tests below are exactly
Python's `\b` semantics for them. -/
def wordHitHere (prev : Option Char) (needle hay : List Char) : Bool :=
  needle.isPrefixOf hay &&
  (match prev with | none => true | some c => !isWordChar c) &&
  (match hay.drop needle.length with | [] => true | c :: _ => !isWordChar c)

def wordSearchAux : Option Char → List Char → List Char → Bool
  | prev, needle, [] => wordHitHere prev needle []
  | prev, needle, c :: rest =>
    wordHitHere prev needle (c :: rest) || wordSearchAux (some c) needle rest

/-- `re.search(r"\b<needle>\b", hay)` as a Boolean, for the literal word
patterns of `email_filter.py`. -/
def wordSearch (needle : String) (hay : List Char) : Bool :=
  wordSearchAux none needle.toList hay

structure EmailDecision where
  should_process : Bool
  reason : String
deriving DecidableEq, Repr

/-- `_domain` from `email_filter.py`: the lower-cased, stripped part of
the sender address after the first `@`. -/
def emailDomain (fromEmail : Option String) : Option String :=
  match fromEmail with
  | none => none
  | some e =>
    if e = "" then none
    else if strContains e "@" then
      some (String.mk (pyStripL (lowerL ((e.toList.dropWhile (· ≠ '@')).drop 1))))
    else none

/-- `is_lead_email` from `email_filter.py`, rule for rule in source
order. The primary/secondary keyword sets are iterated here in their
literal order; CPython iterates them in set order, which only affects
the diagnostic `reason`, never `should_process`. -/
def is_lead_email (subject body : String) (fromEmail : Option String) : EmailDecision :=
  let subj := lowerL subject.toList
  let bodyL := lowerL body.toList
  let dom := emailDomain fromEmail
  match EXCLUDE_SUBJECT_PATTERNS.find? (fun p => wordSearch p.1 subj) with
  | some p => ⟨false, "excluded_subject:" ++ p.2⟩
  | none =>
    if (match dom with
        | some d => d ≠ "" && AGGREGATOR_DOMAINS.any (fun a => endsWithL d.toList a.toList)
        | none => false) then
      ⟨false, "aggregator_domain"⟩
    else if NEWSLETTER_SIGNALS.any (fun sig => strContainsL bodyL sig.toList) &&
            !(PRIMARY_KEYWORDS.any (fun pk =>
                strContainsL (subj ++ '\n' :: bodyL) pk.toList)) then
      ⟨false, "newsletter_signal"⟩
    else
      let hay := subj ++ '\n' :: bodyL
      match PRIMARY_KEYWORDS.find? (fun pk => strContainsL hay pk.toList) with
      | some pk => ⟨true, "primary:" ++ pk⟩
      | none =>
        if SECONDARY_KEYWORDS.any (fun sk => strContainsL hay sk.toList) &&
           JOB_EVIDENCE.any (fun ev => strContainsL hay ev.toList) then
          ⟨true, "secondary+evidence"⟩
        else ⟨false, "no_lead_signals"⟩

/-! ## `lead_qualifier/extraction/company_extractor.py` -/

def COMMON_EMAIL_DOMAINS : List String :=
  ["gmail.com", "outlook.com", "hotmail.com", "yahoo.com", "icloud.com",
   "proton.me", "protonmail.com", "aol.com", "zoho.com"]

def NON_COMPANY_DOMAINS : List String :=
  ["greenhouse.io", "lever.co", "workday.com", "myworkday.com",
   "successfactors.com", "smartrecruiters.com", "talent.com",
   "sendgrid.net", "mailchimp.com", "sparkpostmail.com",
   "campaign-archive.com", "hubspotemail.net", "hs-sites.com",
   "amazonaws.com", "cloudfront.net", "lnkd.in", "bit.ly", "t.co"]

def STOP_ORGS : List String :=
  ["bits pilani", "bits", "placement unit", "career services", "internship cell",
   "human resources", "hr team", "hr", "talent acquisition", "recruitment",
   "recruiter", "team", "alerts", "newsletter", "digest", "no reply", "noreply",
   "upi", "otp", "invoice", "statement", "bank"]

structure Candidate where
  name : String
  score : Int
  source : String
deriving DecidableEq, Repr

/-- The alternatives of `re.split(r"[\n\r\t]| - | — | – | \| ", s)` in
`_trim_noise`; the character class is expanded into its three
single-character branches (they are pairwise disjoint, so order among
them is irrelevant). -/
def TRIM_SEPARATORS : List (List Char) :=
  ["\n", "\x0d", "\t", " - ", " — ", " – ", " | "].map String.toList

/-- Prefix of the string before the first separator occurrence
(`re.split(...)[0]`). -/
def splitFirstAux : Nat → List Char → List Char
  | 0, _ => []
  | _ + 1, [] => []
  | n + 1, c :: rest =>
    if TRIM_SEPARATORS.any (fun sep => sep.isPrefixOf (c :: rest)) then []
    else c :: splitFirstAux n rest

/-- `_trim_noise` from `company_extractor.py`. -/
def trimNoise (s : String) : String :=
  if s = "" then ""
  else
    let t := pyStripL (splitFirstAux s.toList.length s.toList)
    let t := pyStripSet " .,:;!-".toList t
    let t := if t.length > 80 then pyStripL (t.take 80) else t
    String.mk t

def isUpperAZ (c : Char) : Bool := 'A' ≤ c && c ≤ 'Z'

def isAsciiLetter (c : Char) : Bool := ('A' ≤ c && c ≤ 'Z') || ('a' ≤ c && c ≤ 'z')

/-- The character class `[A-Za-z0-9&.\- ]` of the subject/body
`at|with` patterns. -/
def isNameClass (c : Char) : Bool :=
  isAsciiLetter c || ('0' ≤ c && c ≤ '9') || c = '&' || c = '.' || c = '-' || c = ' '

/-- Case-insensitive literal prefix test (`pat` is given lower-case). -/
def ciPrefixOf (pat cs : List Char) : Bool := lowerL (cs.take pat.length) = pat

/-- A `\b` holds between `last` and `next` (where `next = none` means end
of string). -/
def boundaryAfter (last : Char) (next : Option Char) : Bool :=
  match next with
  | none => isWordChar last
  | some nx => isWordChar last != isWordChar nx

/-- Backtrack a greedy character-class run (given reversed) until the
regex position after it is a word boundary: this is how the trailing
`\b` of the subject pattern is matched. Returns the kept run, still
reversed. -/
def trimRunToBoundary : List Char → Option Char → Option (List Char)
  | [], _ => none
  | c :: rest, next =>
    if boundaryAfter c next then some (c :: rest)
    else trimRunToBoundary rest (some c)

/-- Try `\b(?:at|with)\s+([A-Z][A-Za-z0-9&.\- ]{2,})\b` (case-sensitive)
at the current position; returns the captured group. -/
def subjMatchHere (prev : Option Char) (cs : List Char) : Option (List Char) :=
  let tryKw : List Char → Option (List Char) := fun kw =>
    if kw.isPrefixOf cs &&
       (match prev with | none => true | some c => !isWordChar c) then
      let afterKw := cs.drop kw.length
      let sp := afterKw.takeWhile pySpace
      if sp = [] then none
      else
        match afterKw.drop sp.length with
        | [] => none
        | u :: rest2 =>
          if isUpperAZ u then
            let run := rest2.takeWhile isNameClass
            match trimRunToBoundary run.reverse (rest2.drop run.length).head? with
            | some keptRev =>
              if 2 ≤ keptRev.length then some (u :: keptRev.reverse) else none
            | none => none
          else none
    else none
  (tryKw "at".toList).orElse (fun _ => tryKw "with".toList)

/-- `re.search` for the subject pattern: first match only. -/
def subjSearchAux : Option Char → List Char → Option (List Char)
  | _, [] => none
  | prev, c :: rest =>
    match subjMatchHere prev (c :: rest) with
    | some cap => some cap
    | none => subjSearchAux (some c) rest

/-- `_extract_from_subject` from `company_extractor.py`. -/
def extractFromSubject (subject : String) : List String :=
  let s := pyStripL subject.toList
  let out1 : List (List Char) :=
    match subjSearchAux none s with
    | some cap => [pyStripL cap]
    | none => []
  let out2 : List (List Char) :=
    if strContainsL s "|".toList then
      let left := pyStripL (s.takeWhile (· ≠ '|'))
      if 3 ≤ left.length && left.length ≤ 60 then [left] else []
    else []
  (((out1 ++ out2).map (fun x => trimNoise (String.mk x))).filter (fun x => x ≠ ""))

/-- Try `\b<label>\s*:\s*(.+)` (IGNORECASE) at the current position;
returns (capture, remainder after the match). `.` matches every
character except `\n`. -/
def labelMatchHere (label : List Char) (prev : Option Char) (cs : List Char) :
    Option (List Char × List Char) :=
  if ciPrefixOf label cs &&
     (match prev with | none => true | some c => !isWordChar c) then
    let after := cs.drop label.length
    match after.dropWhile pySpace with
    | ':' :: r1 =>
      let r2 := r1.dropWhile pySpace
      let cap := r2.takeWhile (· ≠ '\n')
      if cap = [] then none else some (cap, r2.drop cap.length)
    | _ => none
  else none

/-- `pat.finditer(body)` for a `\b<label>\s*:\s*(.+)` pattern:
non-overlapping matches, scanning resumes after each match. -/
def labelFindAll (label : List Char) : Nat → Option Char → List Char → List (List Char)
  | 0, _, _ => []
  | _ + 1, _, [] => []
  | n + 1, prev, c :: rest =>
    match labelMatchHere label prev (c :: rest) with
    | some (cap, rem) => cap :: labelFindAll label n cap.getLast? rem
    | none => labelFindAll label n (some c) rest

/-- Try `\b<kw>\s+(?:at|with)\s+([A-Z][A-Za-z0-9&.\- ]{2,})` (IGNORECASE)
at the current position. Under IGNORECASE the leading `[A-Z]` matches any
ASCII letter. Returns (capture, remainder). -/
def atWithMatchHere (kw : List Char) (prev : Option Char) (cs : List Char) :
    Option (List Char × List Char) :=
  if ciPrefixOf kw cs &&
     (match prev with | none => true | some c => !isWordChar c) then
    let after := cs.drop kw.length
    let sp1 := after.takeWhile pySpace
    if sp1 = [] then none
    else
      let a1 := after.drop sp1.length
      let tryConn : List Char → Option (List Char × List Char) := fun conn =>
        if ciPrefixOf conn a1 then
          let a2 := a1.drop conn.length
          let sp2 := a2.takeWhile pySpace
          if sp2 = [] then none
          else
            match a2.drop sp2.length with
            | [] => none
            | u :: r2 =>
              if isAsciiLetter u then
                let run := r2.takeWhile isNameClass
                if 2 ≤ run.length then some (u :: run, r2.drop run.length) else none
              else none
        else none
      (tryConn "at".toList).orElse (fun _ => tryConn "with".toList)
  else none

def atWithFindAll (kw : List Char) : Nat → Option Char → List Char → List (List Char)
  | 0, _, _ => []
  | _ + 1, _, [] => []
  | n + 1, prev, c :: rest =>
    match atWithMatchHere kw prev (c :: rest) with
    | some (cap, rem) => cap :: atWithFindAll kw n cap.getLast? rem
    | none => atWithFindAll kw n (some c) rest

/-- A character allowed inside the URL body: `[^\s<>()]`. -/
def urlChar (c : Char) : Bool :=
  !pySpace c && c ≠ '<' && c ≠ '>' && c ≠ '(' && c ≠ ')'

/-- Try `https?://[^\s<>()]+` (IGNORECASE) at the current position. -/
def urlMatchHere (cs : List Char) : Option (List Char × List Char) :=
  let tryScheme : List Char → Option (List Char × List Char) := fun scheme =>
    if ciPrefixOf scheme cs then
      let rest := cs.drop scheme.length
      let run := rest.takeWhile urlChar
      if run = [] then none
      else some (cs.take scheme.length ++ run, rest.drop run.length)
    else none
  (tryScheme "https://".toList).orElse (fun _ => tryScheme "http://".toList)

def urlFindAll : Nat → List Char → List (List Char)
  | 0, _ => []
  | _ + 1, [] => []
  | n + 1, c :: rest =>
    match urlMatchHere (c :: rest) with
    | some (m, rem) => m :: urlFindAll n rem
    | none => urlFindAll n rest

/-- `urlparse(url).netloc` for an `http(s)://` URL: the text between
`//` and the first `/`, `?` or `#`. -/
def urlNetloc (url : List Char) : List Char :=
  ((url.dropWhile (· ≠ '/')).drop 2).takeWhile (fun c => c ≠ '/' && c ≠ '?' && c ≠ '#')

/-- Lines 92–98 of `company_extractor.py`: netloc, lower-case, strip the
port, strip a `www.` prefix. -/
def domainFromUrl (url : List Char) : List Char :=
  let dom := (lowerL (urlNetloc url)).takeWhile (· ≠ ':')
  if startsWithL dom "www.".toList then dom.drop 4 else dom

/-- First-occurrence deduplication. The Python code accumulates domains
in a `set`, whose iteration order CPython leaves unspecified (string
hashing is randomized); we model the one deterministic refinement that
keeps insertion order: sender domain first, then URL domains in body
order. -/
def dedupFirstAux (seen : List (List Char)) : List (List Char) → List (List Char)
  | [] => []
  | d :: rest =>
    if seen.contains d then dedupFirstAux seen rest
    else d :: dedupFirstAux (d :: seen) rest

def GENERIC_DOMAIN_LABELS : List String :=
  ["bank", "co", "com", "org", "net", "edu", "gov", "nic", "mail", "email", "alerts"]

/-- Modelled from the spec: `tldextract`, the external public-suffix
library consumed by `_domain_to_company_guess`, is not part of this
repository; §4.3 of the spec only requires splitting off the registrable
domain label with a fallback to the last subdomain label. We model the
public suffix as the final dot-separated label, which agrees with the
library on every domain arising in this development
(`careers.example.com` ↦ subdomain `careers`, domain `example`;
`axis.bank.in` ↦ subdomain `axis`, domain `bank`). Returns
(subdomain, domain, suffix). -/
def tldParts (d : List Char) : List Char × List Char × List Char :=
  match (splitOnChar '.' d).reverse with
  | [] => ([], [], [])
  | [only] => ([], only, [])
  | suffix :: dom :: subRev => (joinWith '.' subRev.reverse, dom, suffix)

def capitalizeWord (w : List Char) : List Char :=
  match w with
  | [] => []
  | c :: rest =>
    (if 'a' ≤ c && c ≤ 'z' then Char.ofNat (c.toNat - 32) else c) :: rest.map pyLowerChar

/-- `_domain_to_company_guess` from `company_extractor.py`. -/
def domainToCompanyGuess (domain : List Char) : Option String :=
  let d := pyStripL (lowerL domain)
  if d = [] then none
  else
    let d := if startsWithL d "www.".toList then d.drop 4 else d
    let parts := tldParts d
    let base0 := pyStripL parts.2.1
    let base1 :=
      if GENERIC_DOMAIN_LABELS.contains (String.mk base0) && parts.1 ≠ [] then
        match (splitOnChar '.' parts.1).reverse with
        | last :: _ => last
        | [] => base0
      else base0
    let base2 := base1.filter (fun c => ('a' ≤ c && c ≤ 'z') || ('0' ≤ c && c ≤ '9') || c = '-')
    let base3 := pyStripL (base2.map (fun c => if c = '-' then ' ' else c))
    if base3 = [] || base3.length < 3 then none
    else some (String.mk (joinWith ' ' ((pySplitWs base3).map capitalizeWord)))

/-- Candidate generation: steps 1–3 of `extract_company_candidates`
(subject hints, body label patterns, domain guesses), in source order. -/
def rawCandidates (subject body : String) (fromEmail : Option String) : List Candidate :=
  let subjCands := (extractFromSubject subject).map (fun h => Candidate.mk h 6 "subject")
  let bodyL := body.toList
  let mkLabel : String → Int → String → List Candidate := fun label score tag =>
    (((labelFindAll label.toList bodyL.length none bodyL).map
        (fun cap => trimNoise (String.mk (pyStripL cap)))).filter (fun v => v ≠ "")).map
      (fun v => Candidate.mk v score tag)
  let mkAtWith : String → Int → String → List Candidate := fun kw score tag =>
    (((atWithFindAll kw.toList bodyL.length none bodyL).map
        (fun cap => trimNoise (String.mk (pyStripL cap)))).filter (fun v => v ≠ "")).map
      (fun v => Candidate.mk v score tag)
  let bodyCands :=
    mkLabel "company" 9 "body_pattern:0" ++
    mkLabel "organization" 8 "body_pattern:1" ++
    mkLabel "employer" 8 "body_pattern:2" ++
    mkAtWith "internship" 6 "body_pattern:3" ++
    mkAtWith "opportunity" 6 "body_pattern:4"
  let senderDoms : List (List Char) :=
    match emailDomain fromEmail with
    | some d => [d.toList]
    | none => []
  let urlDoms := ((urlFindAll bodyL.length bodyL).map domainFromUrl).filter (fun d => d ≠ [])
  let doms := dedupFirstAux [] (senderDoms ++ urlDoms)
  let domCands := doms.filterMap (fun dom =>
    if dom = [] || COMMON_EMAIL_DOMAINS.any (fun x => dom = x.toList) then none
    else if ["google.com", "docs.google.com", "forms.gle", "drive.google.com"].any
              (fun x => endsWithL dom x.toList) then none
    else if NON_COMPANY_DOMAINS.any (fun x => endsWithL dom x.toList) then none
    else (domainToCompanyGuess dom).map
      (fun g => Candidate.mk g 4 ("domain:" ++ String.mk dom)))
  subjCands ++ bodyCands ++ domCands

/-- Step 4 of `extract_company_candidates`: clean the display name,
canonicalize it, drop empty / stop-listed keys. -/
def keyedCandidates (cands : List Candidate) : List (String × Candidate) :=
  cands.filterMap (fun c =>
    let disp := clean_display_name c.name
    let norm := normalize_company_name disp
    if norm = "" then none
    else if STOP_ORGS.contains norm then none
    else some (norm, Candidate.mk disp c.score c.source))

/-- The dict-update `best_by_norm[norm] = ...` of lines 130–132: keep
the stored candidate unless the new score is strictly greater; a new key
is appended (dicts preserve insertion order). -/
def insertBest : List (String × Candidate) → String × Candidate → List (String × Candidate)
  | [], p => [p]
  | q :: rest, p =>
    if q.1 = p.1 then (q.1, if p.2.score > q.2.score then p.2 else q.2) :: rest
    else q :: insertBest rest p

/-- The same keep-first-on-ties, replace-on-strictly-greater fold, viewed
per key. -/
def bestStep (acc : Option Candidate) (c : Candidate) : Option Candidate :=
  match acc with
  | none => some c
  | some a => if c.score > a.score then some c else some a

def bestOf (cs : List Candidate) : Option Candidate := cs.foldl bestStep none

/-- Descending-by-score ordering used by the final
`sorted(..., key=lambda x: x.score, reverse=True)` (Python's sort is
stable; insertion sort with this non-strict relation is the same stable
descending sort). -/
def candGe (a b : Candidate) : Prop := b.score ≤ a.score

instance : DecidableRel candGe := fun a b => inferInstanceAs (Decidable (b.score ≤ a.score))

instance : IsTotal Candidate candGe := ⟨fun a b => le_total b.score a.score⟩

instance : IsTrans Candidate candGe := ⟨fun _ _ _ hab hbc => le_trans hbc hab⟩

/-- `extract_company_candidates` from `company_extractor.py`. -/
def extract_company_candidates (subject body : String) (fromEmail : Option String) :
    List Candidate :=
  List.insertionSort candGe
    (((keyedCandidates (rawCandidates subject body fromEmail)).foldl insertBest []).map Prod.snd)

/-- `pick_best_company` from `company_extractor.py`: confidence is
`min(0.95, max(0.4, score / 10.0))`. -/
def pick_best_company (subject body : String) (fromEmail : Option String) :
    Option String × Option ℚ × String :=
  match extract_company_candidates subject body fromEmail with
  | [] => (none, none, "none")
  | top :: _ =>
    (some top.name, some (qMin (mkRat 19 20) (qMax (mkRat 2 5) (mkRat top.score 10))), top.source)

/-! ## `lead_qualifier/scoring/rules.py`

Python floats are modelled by `ℚ`; `datetime.now().year` is threaded as
an explicit `currentYear` parameter. Python's `round(x, n)` rounds
half-to-even, Mathlib's `round` rounds half-up; every value rounded here
is an exact multiple of `10^-n` (sub-scores are integers and the weight
table is in hundredths), so the two agree on all reachable inputs. -/

def BITS_RELEVANT_KEYWORDS : List String :=
  ["software", "technology", "internet", "cloud", "ai", "machine learning",
   "electronics", "semiconductor", "telecommunications", "robotics", "data",
   "analytics", "cybersecurity",
   "financial", "bank", "fintech", "payments", "investment", "consulting",
   "health", "biotech", "pharma", "medical"]

def METRO_HINTS : List String :=
  ["san francisco", "seattle", "new york", "london", "singapore", "bengaluru",
   "bangalore", "mumbai", "delhi", "hyderabad", "chennai", "pune",
   "cupertino", "los angeles", "toronto", "sydney", "melbourne"]

structure Profile where
  founded_year : Option Int
  employees : Option Int
  revenue : Option String
  industry : Option String
  hq_location : Option String
  description : Option String
  confidence : Option ℚ
deriving DecidableEq, Repr

def isDigitChar (c : Char) : Bool := '0' ≤ c && c ≤ '9'

def digitsToNat (ds : List Char) : Nat :=
  ds.foldl (fun acc c => acc * 10 + (c.toNat - '0'.toNat)) 0

/-- Value of an integer part plus an optional fractional digit string
(`float(m.group(1))`). -/
def decimalValue (intDigits fracDigits : List Char) : ℚ :=
  Rat.divInt
    ((digitsToNat intDigits : ℤ) * (((10 : ℕ) ^ fracDigits.length : ℕ) : ℤ) +
      (digitsToNat fracDigits : ℤ))
    (((10 : ℕ) ^ fracDigits.length : ℕ) : ℤ)

/-- After the number, match `\s*(billion|million)` (alternation order as
in the source; no trailing boundary, so a prefix hit suffices). -/
def unitAfter (cs : List Char) : Option Bool :=
  let rest := cs.dropWhile pySpace
  if startsWithL rest "billion".toList then some true
  else if startsWithL rest "million".toList then some false
  else none

/-- Leftmost match of `(\d+(\.\d+)?)\s*(billion|million)` over the
comma-stripped lower-cased revenue text. Backtracking inside the digit
run or the fraction never helps (a shortened run leaves a digit or a dot
in front of the unit), so only the maximal run with, then without, the
fraction is tried; a failed run is skipped whole, since a match starting
inside it consumes the same tail. -/
def revScan : Nat → List Char → Option ℚ
  | 0, _ => none
  | _ + 1, [] => none
  | n + 1, c :: rest =>
    if isDigitChar c then
      let run := (c :: rest).takeWhile isDigitChar
      let after := (c :: rest).dropWhile isDigitChar
      let withFrac : Option ℚ :=
        match after with
        | '.' :: ds =>
          let f := ds.takeWhile isDigitChar
          if f = [] then none
          else
            match unitAfter (ds.drop f.length) with
            | some isBillion =>
              some (if isBillion then decimalValue run f
                    else qDiv (decimalValue run f) 1000)
            | none => none
        | _ => none
      let noFrac : Option ℚ :=
        match unitAfter after with
        | some isBillion =>
          some (if isBillion then decimalValue run []
                else qDiv (decimalValue run []) 1000)
        | none => none
      match withFrac.orElse (fun _ => noFrac) with
      | some v => some v
      | none => revScan n after
    else revScan n rest

/-- `_parse_revenue_to_bucket` from `rules.py`: revenue in billions USD,
`None` if no `<number> (billion|million)` is found. -/
def parse_revenue_to_bucket (revenueText : Option String) : Option ℚ :=
  match revenueText with
  | none => none
  | some t =>
    if t = "" then none
    else
      let s := (lowerL t.toList).filter (· ≠ ',')
      revScan s.length s

/-- `score_age_1_to_5` from `rules.py`; `not founded_year` is true for
`None` and for `0`. Returns `-1` as the disqualification sentinel. -/
def score_age_1_to_5 (currentYear : Int) (foundedYear : Option Int) : Int :=
  match foundedYear with
  | none => 0
  | some y =>
    if y = 0 then 0
    else
      let age := currentYear - y
      if age < 1 then -1
      else if 30 ≤ age then 5
      else if 15 ≤ age then 4
      else if 7 ≤ age then 3
      else if 2 ≤ age then 2
      else 1

/-- `score_employees_1_to_5` from `rules.py`. -/
def score_employees_1_to_5 (employees : Option Int) : Int :=
  match employees with
  | none => 0
  | some e =>
    if e = 0 then 0
    else if 100000 ≤ e then 5
    else if 10000 ≤ e then 4
    else if 1000 ≤ e then 3
    else if 100 ≤ e then 2
    else 1

/-- `score_financial_stability_1_to_5` from `rules.py`. -/
def score_financial_stability_1_to_5 (revenueText : Option String) : Int :=
  match parse_revenue_to_bucket revenueText with
  | none => 0
  | some rev =>
    if 50 ≤ rev then 5
    else if 5 ≤ rev then 4
    else if 1 ≤ rev then 3
    else if mkRat 1 10 ≤ rev then 2
    else 1

/-- `score_founders_profile_1_to_5` from `rules.py`: explicit placeholder. -/
def score_founders_profile_1_to_5 : Int := 0

/-- The `f"{industry or ''} {description or ''}".lower()` text. -/
def industryDescText (industry description : Option String) : List Char :=
  lowerL ((industry.getD "").toList ++ ' ' :: (description.getD "").toList)

/-- `score_domain_relevance_1_to_5` from `rules.py`. -/
def score_domain_relevance_1_to_5 (industry description : Option String) : Int :=
  let text := industryDescText industry description
  if pyStripL text = [] then 0
  else
    let hits := (BITS_RELEVANT_KEYWORDS.filter (fun kw => strContainsL text kw.toList)).length
    if 6 ≤ hits then 5
    else if 4 ≤ hits then 4
    else if 2 ≤ hits then 3
    else if 1 ≤ hits then 2
    else 1

/-- `score_project_quality_1_to_5` from `rules.py`. -/
def score_project_quality_1_to_5 (industry description : Option String) : Int :=
  let text := industryDescText industry description
  if pyStripL text = [] then 0
  else
    let highImpact := ["ai", "cloud", "platform", "infrastructure", "research", "data", "analytics"]
    let routine := ["retail", "news", "publishing", "media"]
    let s : Int := 3
    let s := if highImpact.any (fun k => strContainsL text k.toList) then s + 1 else s
    let s := if routine.any (fun k => strContainsL text k.toList) then s - 1 else s
    max 1 (min 5 s)

/-- `score_geo_1_to_5` from `rules.py`. -/
def score_geo_1_to_5 (hqLocation : Option String) : Int :=
  match hqLocation with
  | none => 0
  | some h =>
    if h = "" then 0
    else if METRO_HINTS.any (fun m => strContainsL (lowerL h.toList) m.toList) then 5
    else 3

structure Subscores where
  age : Int
  employees : Int
  financial : Int
  founders : Int
  domain : Int
  project : Int
  geo : Int
deriving DecidableEq, Repr

structure ScoreResult where
  disqualified : Bool
  total_score_0_100 : ℚ
  label : String
  reason : Option String
  low_confidence : Option Bool
  profile_confidence : Option ℚ
  subscores : Option Subscores
  weighted_1_to_5 : Option ℚ
deriving DecidableEq, Repr

/-- `compute_weighted_score` from `rules.py`. The age sentinel
short-circuits the whole computation: the early-return dictionary
carries no sub-scores or confidence fields, modelled by `none`. -/
def compute_weighted_score (currentYear : Int) (profile : Profile) : ScoreResult :=
  let conf : ℚ := profile.confidence.getD 0
  let ageScore := score_age_1_to_5 currentYear profile.founded_year
  if ageScore = -1 then
    { disqualified := true, total_score_0_100 := 0, label := "Disqualified",
      reason := some "Company age < 1 year (auto reject)",
      low_confidence := none, profile_confidence := none,
      subscores := none, weighted_1_to_5 := none }
  else
    let empScore := score_employees_1_to_5 profile.employees
    let finScore := score_financial_stability_1_to_5 profile.revenue
    let founderScore := score_founders_profile_1_to_5
    let domainScore := score_domain_relevance_1_to_5 profile.industry profile.description
    let projectScore := score_project_quality_1_to_5 profile.industry profile.description
    let geoScore := score_geo_1_to_5 profile.hq_location
    let weighted : ℚ :=
      qAdd (qAdd (qAdd (qAdd (qAdd (qAdd
        (qMul (ageScore : ℚ) (mkRat 1 10))
        (qMul (empScore : ℚ) (mkRat 1 10)))
        (qMul (finScore : ℚ) (mkRat 1 10)))
        (qMul (founderScore : ℚ) (mkRat 1 20)))
        (qMul (domainScore : ℚ) (mkRat 1 4)))
        (qMul (projectScore : ℚ) (mkRat 1 5)))
        (qMul (geoScore : ℚ) (mkRat 1 5))
    let total := roundTo 2 (qMul (qDiv weighted 5) 100)
    let label :=
      if 80 ≤ total then "Strong"
      else if 60 ≤ total then "Moderate"
      else if 40 ≤ total then "Weak"
      else "Disqualified"
    { disqualified := decide (label = "Disqualified"),
      total_score_0_100 := total, label := label, reason := none,
      low_confidence := some (decide (conf < mkRat 3 5)), profile_confidence := some conf,
      subscores := some ⟨ageScore, empScore, finScore, founderScore,
                         domainScore, projectScore, geoScore⟩,
      weighted_1_to_5 := some (roundTo 3 weighted) }

/-! ## JSON values and `json.loads`

`extraction_agent.py` feeds the model response to `json.loads`. The
Python `json` module is standard-library code outside this repository;
it is embedded here as a recursive-descent parser of the JSON grammar
(strict mode: no trailing commas, no unescaped control characters in
strings, a lone top-level value with only whitespace around it). -/

inductive Json where
  | jnull
  | jbool (b : Bool)
  | jnum (q : ℚ)
  | jstr (s : String)
  | jarr (elems : List Json)
  | jobj (fields : List (String × Json))
deriving Repr

/-- JSON whitespace (space, tab, newline, carriage return). -/
def jsonWs (c : Char) : Bool := c = ' ' || c = '\t' || c = '\n' || c = '\x0d'

def skipJsonWs (cs : List Char) : List Char := cs.dropWhile jsonWs

/-- Value of one hexadecimal digit (code-point arithmetic). -/
def hexVal (c : Char) : Option Nat :=
  let code := c.toNat
  if 48 ≤ code && code ≤ 57 then some (code - 48)
  else if 97 ≤ code && code ≤ 102 then some (code - 87)
  else if 65 ≤ code && code ≤ 70 then some (code - 55)
  else none

/-- The two-character escape sequences of JSON strings, as (letter,
replacement) pairs. -/
def JSON_ESCAPES : List (Char × Char) :=
  [('"', '"'), ('\\', '\\'), ('/', '/'), ('b', '\x08'), ('f', '\x0c'),
   ('n', '\n'), ('r', '\x0d'), ('t', '\t')]

/-- Body of a JSON string literal after the opening quote: handles the
escape sequences, rejects raw control characters, stops at the closing
quote. (Surrogate-pair recombination of `\uXXXX` escapes is not
modelled; no input in this development uses them.) -/
def parseJsonStrAux : Nat → List Char → List Char → Option (List Char × List Char)
  | 0, _, _ => none
  | _ + 1, _, [] => none
  | n + 1, acc, c :: rest =>
    if c = '"' then some (acc.reverse, rest)
    else if c = '\\' then
      match rest with
      | [] => none
      | e :: r2 =>
        if e = 'u' then
          let digits := (r2.take 4).filterMap hexVal
          if digits.length = 4 then
            parseJsonStrAux n
              (Char.ofNat (digits.foldl (fun acc16 d => acc16 * 16 + d) 0) :: acc)
              (r2.drop 4)
          else none
        else
          match JSON_ESCAPES.find? (fun pr => pr.1 = e) with
          | some pr => parseJsonStrAux n (pr.2 :: acc) r2
          | none => none
    else if c.toNat < 32 then none
    else parseJsonStrAux n (c :: acc) rest

def parseJsonStr (cs : List Char) : Option (List Char × List Char) :=
  match cs with
  | '"' :: rest => parseJsonStrAux rest.length [] rest
  | _ => none

/-- Exact value of a JSON number literal. -/
def jsonNumValue (neg : Bool) (intD fracD : List Char) (expNeg : Bool) (expD : List Char) : ℚ :=
  let m : ℤ := ((digitsToNat intD * 10 ^ fracD.length + digitsToNat fracD : ℕ) : ℤ)
  let m := if neg then -m else m
  let e := digitsToNat expD
  if expNeg then Rat.divInt m (((10 : ℕ) ^ (fracD.length + e) : ℕ) : ℤ)
  else Rat.divInt (m * (((10 : ℕ) ^ e : ℕ) : ℤ)) (((10 : ℕ) ^ fracD.length : ℕ) : ℤ)

/-- Optional exponent part of a JSON number, then the assembled value. -/
def parseJsonNumExp (neg : Bool) (intD fracD : List Char) (r2 : List Char) :
    Option (ℚ × List Char) :=
  match r2 with
  | c :: r3 =>
    if c = 'e' || c = 'E' then
      let (expNeg, r4) : Bool × List Char :=
        match r3 with
        | '-' :: r => (true, r)
        | '+' :: r => (false, r)
        | _ => (false, r3)
      let eD := r4.takeWhile isDigitChar
      if eD = [] then none
      else some (jsonNumValue neg intD fracD expNeg eD, r4.drop eD.length)
    else some (jsonNumValue neg intD fracD false [], r2)
  | [] => some (jsonNumValue neg intD fracD false [], [])

/-- JSON number grammar: `-? (0 | [1-9][0-9]*) (. [0-9]+)? ([eE] [-+]? [0-9]+)?`. -/
def parseJsonNum (cs : List Char) : Option (ℚ × List Char) :=
  let (neg, cs1) := match cs with | '-' :: r => (true, r) | _ => (false, cs)
  let intPart : Option (List Char × List Char) :=
    match cs1 with
    | '0' :: r =>
      match r with
      | c :: _ => if isDigitChar c then none else some (['0'], r)
      | [] => some (['0'], [])
    | c :: _ =>
      if '1' ≤ c && c ≤ '9' then
        some (cs1.takeWhile isDigitChar, cs1.dropWhile isDigitChar)
      else none
    | [] => none
  match intPart with
  | none => none
  | some (intD, r1) =>
    match r1 with
    | '.' :: ds =>
      let f := ds.takeWhile isDigitChar
      if f = [] then none
      else parseJsonNumExp neg intD f (ds.drop f.length)
    | _ => parseJsonNumExp neg intD [] r1

/-- One step of the JSON value parser, structurally recursive on fuel.
The sentinel characters `'\x01'` / `'\x02'` (which strict JSON cannot
contain outside strings, where they are rejected as control characters)
mark the continuation states "array items" and "object members", so that
the whole mutually recursive grammar lives in one fuelled function. -/
def jstep : Nat → List Char → Option (Json × List Char)
  | 0, _ => none
  | n + 1, cs₀ =>
    match skipJsonWs cs₀ with
    | [] => none
    | c :: rest =>
      if c = '\x01' then
        match jstep n rest with
        | none => none
        | some (v, r1) =>
          match skipJsonWs r1 with
          | ',' :: r2 =>
            match jstep n ('\x01' :: r2) with
            | some (.jarr vs, r3) => some (.jarr (v :: vs), r3)
            | _ => none
          | ']' :: r2 => some (.jarr [v], r2)
          | _ => none
      else if c = '\x02' then
        match parseJsonStr (skipJsonWs rest) with
        | none => none
        | some (k, r1) =>
          match skipJsonWs r1 with
          | ':' :: r2 =>
            match jstep n r2 with
            | none => none
            | some (v, r3) =>
              match skipJsonWs r3 with
              | ',' :: r4 =>
                match jstep n ('\x02' :: r4) with
                | some (.jobj fs, r5) => some (.jobj ((String.mk k, v) :: fs), r5)
                | _ => none
              | '\x7d' :: r4 => some (.jobj [(String.mk k, v)], r4)
              | _ => none
          | _ => none
      else if c = '[' then
        match skipJsonWs rest with
        | ']' :: r1 => some (.jarr [], r1)
        | r1 => jstep n ('\x01' :: r1)
      else if c = '\x7b' then
        match skipJsonWs rest with
        | '\x7d' :: r1 => some (.jobj [], r1)
        | r1 => jstep n ('\x02' :: r1)
      else if c = '"' then
        match parseJsonStr (c :: rest) with
        | some (s, r1) => some (.jstr (String.mk s), r1)
        | none => none
      else if startsWithL (c :: rest) "true".toList then
        some (.jbool true, (c :: rest).drop 4)
      else if startsWithL (c :: rest) "false".toList then
        some (.jbool false, (c :: rest).drop 5)
      else if startsWithL (c :: rest) "null".toList then
        some (.jnull, (c :: rest).drop 4)
      else
        match parseJsonNum (c :: rest) with
        | some (q, r1) => some (.jnum q, r1)
        | none => none

/-- `json.loads`: a single JSON value with nothing but whitespace after it. -/
def jsonParse (s : String) : Option Json :=
  match jstep (2 * s.toList.length + 8) s.toList with
  | some (v, rest) => if skipJsonWs rest = [] then some v else none
  | none => none

/-! ## `lead_qualifier/agents/extraction_agent.py` -/

/-- `JSON_BLOCK_RE.search`: the regex `\{.*\}` (DOTALL) matches from the
first opening brace to the last closing brace after it, or not at all. -/
def braceSpanL (text : List Char) : Option (List Char) :=
  let pre := text.dropWhile (· ≠ '\x7b')
  let fromLastRev := pre.reverse.dropWhile (· ≠ '\x7d')
  match pre, fromLastRev with
  | '\x7b' :: _, '\x7d' :: _ => some fromLastRev.reverse
  | _, _ => none

/-- `_safe_json_parse` from `extraction_agent.py`. -/
def safeJsonParse (text : String) : Option Json :=
  let t := pyStripL text.toList
  if t = [] then none
  else
    match braceSpanL t with
    | none => none
    | some span => jsonParse (String.mk span)

/-- Python truthiness of a decoded JSON value. -/
def jsonTruthy : Json → Bool
  | .jnull => false
  | .jbool b => b
  | .jnum q => decide (q ≠ 0)
  | .jstr s => decide (s ≠ "")
  | .jarr xs => !xs.isEmpty
  | .jobj fs => !fs.isEmpty

/-- `dict.get` on the decoded object; `json.loads` lets a repeated key
overwrite the earlier one, hence the last match. -/
def pyDictGet (fields : List (String × Json)) (k : String) : Option Json :=
  match fields.reverse.find? (fun p => p.1 = k) with
  | some p => some p.2
  | none => none

/-- Python `float(text)` on decimal literals (the `inf` / `nan` spellings
are not modelled; no input in this development uses them). -/
def pyFloatParse (s : String) : Option ℚ :=
  let t := pyStripL s.toList
  let (neg, t1) : Bool × List Char :=
    match t with
    | '-' :: r => (true, r)
    | '+' :: r => (false, r)
    | _ => (false, t)
  let intD := t1.takeWhile isDigitChar
  let r1 := t1.drop intD.length
  let (fracD, r2) : List Char × List Char :=
    match r1 with
    | '.' :: ds => (ds.takeWhile isDigitChar, ds.dropWhile isDigitChar)
    | _ => ([], r1)
  if intD = [] && fracD = [] then none
  else
    match r2 with
    | [] => some (jsonNumValue neg intD fracD false [])
    | e :: r3 =>
      if e = 'e' || e = 'E' then
        let (expNeg, r4) : Bool × List Char :=
          match r3 with
          | '-' :: r => (true, r)
          | '+' :: r => (false, r)
          | _ => (false, r3)
        let eD := r4.takeWhile isDigitChar
        if eD = [] || r4.drop eD.length ≠ [] then none
        else some (jsonNumValue neg intD fracD expNeg eD)
      else none

/-- Python `float(x)` over a decoded JSON value; `none` models the
`TypeError` / `ValueError` caught by the agent. -/
def pyFloatOfJson : Json → Option ℚ
  | .jnum q => some q
  | .jbool true => some 1
  | .jbool false => some 0
  | .jstr s => pyFloatParse s
  | _ => none

/-- Python `str(x)` of a decoded JSON value. The rendering of numbers and
nested containers is simplified (no claim inspects them); strings, which
the claims do inspect, are the identity, and booleans / null use their
Python spellings. -/
def pyStr : Json → String
  | .jstr s => s
  | .jbool true => "True"
  | .jbool false => "False"
  | .jnull => "None"
  | .jnum q => toString q.num ++ (if q.den = 1 then "" else "/" ++ toString q.den)
  | .jarr _ => "[...]"
  | .jobj _ => "\x7b...\x7d"

structure ExtractionResult where
  is_lead : Bool
  company_name : Option String
  normalized_name : Option String
  company_domain : Option Json
  role_title : Option Json
  location : Option Json
  source_links : List String
  confidence : ℚ
  raw_json : List (String × Json)

/-- The object fields recovered from the raw model response
(`_safe_json_parse(out) or {}`; the span regex guarantees any parsed
value is an object). -/
def dataFields (raw : String) : List (String × Json) :=
  match safeJsonParse raw with
  | some (.jobj fs) => fs
  | _ => []

/-- Lines 87–118 of `extraction_agent.py`: build the `ExtractionResult`
from the raw response text. -/
def extractionFromRaw (raw : String) : ExtractionResult :=
  let data := dataFields raw
  let isLead := jsonTruthy ((pyDictGet data "is_lead").getD (.jbool false))
  let company : Option String :=
    match pyDictGet data "company_name" with
    | some (.jstr s) => some (clean_display_name s)
    | _ => none
  let norm : Option String :=
    match company with
    | some s => if s = "" then none else some (normalize_company_name s)
    | none => none
  let conf1 := (pyFloatOfJson ((pyDictGet data "confidence").getD (.jnum 0))).getD 0
  let links : List String :=
    match (pyDictGet data "source_links").getD .jnull with
    | .jarr xs => (xs.filter jsonTruthy).map pyStr
    | _ => []
  { is_lead := isLead, company_name := company, normalized_name := norm,
    company_domain := pyDictGet data "company_domain",
    role_title := pyDictGet data "role_title",
    location := pyDictGet data "location",
    source_links := links,
    confidence := qMax 0 (qMin 1 conf1),
    raw_json := data }

/-- The raw `source_links` JSON list (empty when the field is absent or
not a list). -/
def sourceLinksList (raw : String) : List Json :=
  match (pyDictGet (dataFields raw) "source_links").getD Json.jnull with
  | .jarr xs => xs
  | _ => []

/-! ## `lead_qualifier/llm/client.py` and `scripts/run_once.py`

`os.environ` is threaded as an explicit environment value; the network
call of `LLMClient.chat_json` is an oracle parameter: `Except.ok raw`
for a transport success returning `raw`, `Except.error ()` for any
transport failure. -/

structure PyEnv where
  useLlmExtraction : Option String
  llmBaseUrl : Option String
  llmModel : Option String
  llmApiKey : Option String
deriving DecidableEq, Repr

structure LLMConfig where
  base_url : String
  model : String
  api_key : String
deriving DecidableEq, Repr

/-- `get_llm_config` from `llm/client.py`: missing `LLM_BASE_URL` or
`LLM_MODEL` is a `ValueError` raised at the point of invocation. -/
def get_llm_config (env : PyEnv) : Except String LLMConfig :=
  let baseUrl := String.mk (pyStripL (env.llmBaseUrl.getD "").toList)
  let model := String.mk (pyStripL (env.llmModel.getD "").toList)
  let apiKey := String.mk (pyStripL (env.llmApiKey.getD "local").toList)
  if baseUrl = "" || model = "" then
    Except.error "Missing LLM_BASE_URL or LLM_MODEL in environment/.env"
  else Except.ok ⟨baseUrl, model, apiKey⟩

/-- `_llm_enabled` from `run_once.py`. -/
def llmEnabled (env : PyEnv) : Bool :=
  String.mk (pyStripL (env.useLlmExtraction.getD "0").toList) = "1"

inductive LlmFailure where
  | configError (msg : String)
  | transportError
deriving DecidableEq, Repr

/-- `extract_with_llm` from `extraction_agent.py`: read the service
configuration (raising eagerly when it is missing), perform the chat
call (the oracle), then parse the response defensively. Prompt assembly
(with its 300/6000-character truncations) only affects the request text,
not the result. -/
def extract_with_llm (env : PyEnv) (chatOutcome : Except Unit String)
    (_subject _body : String) (_fromEmail : Option String) :
    Except LlmFailure ExtractionResult :=
  match get_llm_config env with
  | .error m => .error (.configError m)
  | .ok _cfg =>
    match chatOutcome with
    | .error _ => .error .transportError
    | .ok raw => .ok (extractionFromRaw raw)

/-- `_try_llm_extract` from `run_once.py`: the per-email wrapper. Its
`except Exception` catches every failure of `extract_with_llm` — the
transport errors and the configuration `ValueError` alike — and degrades
to `(None, None, None)`. -/
def tryLlmExtract (env : PyEnv) (chatOutcome : Except Unit String)
    (subject body : String) (fromEmail : Option String) :
    Option String × Option ℚ × Option String :=
  if !llmEnabled env then (none, none, none)
  else
    match extract_with_llm env chatOutcome subject body fromEmail with
    | .error _ => (none, none, none)
    | .ok res =>
      if !res.is_lead then (none, none, none)
      else
        match res.company_name with
        | none => (none, none, none)
        | some cn =>
          if cn = "" then (none, none, none)
          else
            let norm :=
              match res.normalized_name with
              | some nm => if nm = "" then normalize_company_name cn else nm
              | none => normalize_company_name cn
            if norm = "" then (none, none, none)
            else (some cn, some res.confidence, some "llm")

/-- Lines 120–128 of `run_once.py`: the escalation decision of the
fallback coordinator. -/
def needs_llm_decision (companyName : Option String) (conf : Option ℚ) : Bool :=
  match companyName with
  | none => true
  | some n =>
    if n = "" then true
    else
      match conf with
      | none => true
      | some c =>
        if c < mkRat 3 5 then true
        else decide (normalize_company_name n = "")

def exceptIsOk {ε α : Type} : Except ε α → Bool
  | .ok _ => true
  | .error _ => false

/-- Whether processing one accepted email reaches the model service's
network call: the coordinator must escalate, the feature must be
enabled, and `get_llm_config` must succeed (a missing configuration
raises before any network traffic). -/
def llm_service_invoked (env : PyEnv) (subject body : String)
    (fromEmail : Option String) : Bool :=
  if !(is_lead_email subject body fromEmail).should_process then false
  else
    let t := pick_best_company subject body fromEmail
    if needs_llm_decision t.1 t.2.1 then
      llmEnabled env && exceptIsOk (get_llm_config env)
    else false

/-- Association-list lookup on the dedup accumulator (proof tool for the
dict model; keys are kept unique by `insertBest`). -/
def lookupKey : List (String × Candidate) → String → Option Candidate
  | [], _ => none
  | p :: rest, k => if p.1 = k then some p.2 else lookupKey rest k

/-- The candidates of `ps` filed under identity key `k`, in order. -/
def sameKeyCands (ps : List (String × Candidate)) (k : String) : List Candidate :=
  (ps.filter (fun p => p.1 = k)).map Prod.snd

/-! ## Lemmas: exact rational helpers -/

theorem qAdd_eq (a b : ℚ) : qAdd a b = a + b := by
  have ha : ((a.den : ℚ)) ≠ 0 := by exact_mod_cast a.den_nz
  have hb : ((b.den : ℚ)) ≠ 0 := by exact_mod_cast b.den_nz
  rw [qAdd, Rat.divInt_eq_div]
  conv_rhs => rw [← Rat.num_div_den a, ← Rat.num_div_den b]
  push_cast
  field_simp

theorem qMul_eq (a b : ℚ) : qMul a b = a * b := by
  have ha : ((a.den : ℚ)) ≠ 0 := by exact_mod_cast a.den_nz
  have hb : ((b.den : ℚ)) ≠ 0 := by exact_mod_cast b.den_nz
  rw [qMul, Rat.divInt_eq_div]
  conv_rhs => rw [← Rat.num_div_den a, ← Rat.num_div_den b]
  push_cast
  field_simp

theorem qDiv_eq (a b : ℚ) (hb : b ≠ 0) : qDiv a b = a / b := by
  have ha : ((a.den : ℚ)) ≠ 0 := by exact_mod_cast a.den_nz
  have hbd : ((b.den : ℚ)) ≠ 0 := by exact_mod_cast b.den_nz
  have hbn : ((b.num : ℚ)) ≠ 0 := by
    exact_mod_cast Rat.num_ne_zero.mpr hb
  rw [qDiv, Rat.divInt_eq_div]
  conv_rhs => rw [← Rat.num_div_den a, ← Rat.num_div_den b]
  push_cast
  field_simp

/-- The order on `ℚ` is definitionally `Rat.blt`. -/
theorem rat_lt_iff_blt (a b : ℚ) : a < b ↔ Rat.blt a b = true := Iff.rfl

theorem qMax_eq (a b : ℚ) : qMax a b = max a b := by
  rw [qMax, max_comm]
  rcases lt_or_le a b with h | h
  · rw [if_pos ((rat_lt_iff_blt a b).mp h), max_eq_left h.le]
  · rw [if_neg (fun hb => absurd ((rat_lt_iff_blt a b).mpr hb) (not_lt.mpr h)),
      max_eq_right h]

theorem qMin_eq (a b : ℚ) : qMin a b = min a b := by
  rw [qMin]
  rcases lt_or_le b a with h | h
  · rw [if_pos ((rat_lt_iff_blt b a).mp h), min_eq_right h.le]
  · rw [if_neg (fun hb => absurd ((rat_lt_iff_blt b a).mpr hb) (not_lt.mpr h)),
      min_eq_left h]

theorem roundTo_intCast (n : Nat) (k : ℤ) : roundTo n ((k : ℚ)) = (k : ℚ) := by
  have h10 : (0 : ℤ) < ((10 : ℕ) ^ n : ℕ) := by positivity
  rw [roundTo, Rat.intCast_num, Rat.intCast_den]
  have hd : Rat.divInt (k * (((10 : ℕ) ^ n : ℕ) : ℤ)) ((1 : ℕ) : ℤ) =
      ((k * (((10 : ℕ) ^ n : ℕ) : ℤ) : ℤ) : ℚ) := by
    rw [Nat.cast_one, Rat.divInt_one]
  rw [hd, qRound, Rat.intCast_num, Rat.intCast_den]
  have hfd : Int.fdiv (2 * (k * (((10 : ℕ) ^ n : ℕ) : ℤ)) + ((1 : ℕ) : ℤ))
      (2 * ((1 : ℕ) : ℤ)) = k * (((10 : ℕ) ^ n : ℕ) : ℤ) := by
    rw [Int.fdiv_eq_ediv _ (by norm_num)]
    omega
  rw [hfd, Rat.mkRat_eq_div]
  push_cast
  rw [mul_div_assoc, div_self (by positivity), mul_one]

/-- The aggregation pipeline of `compute_weighted_score`, rewritten from
the kernel-evaluable operations to a single integer: the rescaled total
is always an integer because the weight table is in twentieths. -/
theorem weightedTotal_eq (a e f fo d p g : ℤ) :
    qMul (qDiv (qAdd (qAdd (qAdd (qAdd (qAdd (qAdd
        (qMul (a : ℚ) (mkRat 1 10))
        (qMul (e : ℚ) (mkRat 1 10)))
        (qMul (f : ℚ) (mkRat 1 10)))
        (qMul (fo : ℚ) (mkRat 1 20)))
        (qMul (d : ℚ) (mkRat 1 4)))
        (qMul (p : ℚ) (mkRat 1 5)))
        (qMul (g : ℚ) (mkRat 1 5))) 5) 100 =
      ((a * 2 + e * 2 + f * 2 + fo + d * 5 + p * 4 + g * 4 : ℤ) : ℚ) := by
  rw [qMul_eq, qDiv_eq _ _ (by norm_num), qAdd_eq, qAdd_eq, qAdd_eq, qAdd_eq, qAdd_eq,
    qAdd_eq, qMul_eq, qMul_eq, qMul_eq, qMul_eq, qMul_eq, qMul_eq, qMul_eq,
    Rat.mkRat_eq_div, Rat.mkRat_eq_div, Rat.mkRat_eq_div, Rat.mkRat_eq_div]
  push_cast
  ring

/-! ## Lemmas: sub-score ranges -/

theorem score_age_range (cy : Int) (fy : Option Int)
    (h : score_age_1_to_5 cy fy ≠ -1) :
    0 ≤ score_age_1_to_5 cy fy ∧ score_age_1_to_5 cy fy ≤ 5 := by
  rcases fy with _ | y <;> simp only [score_age_1_to_5] at h ⊢
  · omega
  · split_ifs at h ⊢ <;> omega

theorem score_employees_range (e : Option Int) :
    0 ≤ score_employees_1_to_5 e ∧ score_employees_1_to_5 e ≤ 5 := by
  rcases e with _ | v <;> simp only [score_employees_1_to_5]
  · omega
  · split_ifs <;> omega

theorem score_financial_range (r : Option String) :
    0 ≤ score_financial_stability_1_to_5 r ∧ score_financial_stability_1_to_5 r ≤ 5 := by
  rw [score_financial_stability_1_to_5]
  rcases parse_revenue_to_bucket r with _ | v <;> dsimp only
  · omega
  · split_ifs <;> omega

theorem score_domain_range (i d : Option String) :
    0 ≤ score_domain_relevance_1_to_5 i d ∧ score_domain_relevance_1_to_5 i d ≤ 5 := by
  simp only [score_domain_relevance_1_to_5]
  split_ifs <;> omega

theorem score_project_range (i d : Option String) :
    0 ≤ score_project_quality_1_to_5 i d ∧ score_project_quality_1_to_5 i d ≤ 5 := by
  simp only [score_project_quality_1_to_5]
  split_ifs <;> decide

theorem score_geo_range (h : Option String) :
    0 ≤ score_geo_1_to_5 h ∧ score_geo_1_to_5 h ≤ 5 := by
  rcases h with _ | v <;> simp only [score_geo_1_to_5]
  · omega
  · split_ifs <;> omega

/-! ## Lemmas: the keep-best-per-key dict fold -/

theorem lookupKey_insertBest (m : List (String × Candidate)) (p : String × Candidate)
    (k : String) :
    lookupKey (insertBest m p) k =
      if p.1 = k then bestStep (lookupKey m k) p.2 else lookupKey m k := by
  induction m with
  | nil =>
    by_cases hk : p.1 = k
    · simp only [insertBest, lookupKey, if_pos hk, bestStep]
    · simp only [insertBest, lookupKey, if_neg hk]
  | cons q rest ih =>
    by_cases hq : q.1 = p.1
    · by_cases hk : p.1 = k
      · have hqk : q.1 = k := hq.trans hk
        simp only [insertBest, if_pos hq, lookupKey, if_pos hqk, if_pos hk, bestStep]
        split_ifs <;> rfl
      · have hqk : ¬q.1 = k := fun h => hk (hq ▸ h)
        simp only [insertBest, if_pos hq, lookupKey, if_neg hqk, if_neg hk]
    · by_cases hk : q.1 = k
      · have hpk : ¬p.1 = k := fun h => hq (by rw [hk, h])
        simp only [insertBest, if_neg hq, lookupKey, if_pos hk, if_neg hpk]
      · simp only [insertBest, if_neg hq, lookupKey, if_neg hk, ih]

theorem sameKeyCands_cons (p : String × Candidate) (rest : List (String × Candidate))
    (k : String) :
    sameKeyCands (p :: rest) k =
      if p.1 = k then p.2 :: sameKeyCands rest k else sameKeyCands rest k := by
  by_cases hk : p.1 = k <;> simp [sameKeyCands, List.filter_cons, hk]

theorem lookupKey_foldl (ps : List (String × Candidate)) (m : List (String × Candidate))
    (k : String) :
    lookupKey (ps.foldl insertBest m) k =
      (sameKeyCands ps k).foldl bestStep (lookupKey m k) := by
  induction ps generalizing m with
  | nil => simp [sameKeyCands]
  | cons p rest ih =>
    rw [List.foldl_cons, ih, lookupKey_insertBest, sameKeyCands_cons]
    by_cases hk : p.1 = k
    · rw [if_pos hk, if_pos hk, List.foldl_cons]
    · rw [if_neg hk, if_neg hk]

theorem mem_insertBest {m : List (String × Candidate)} {p q : String × Candidate}
    (hq : q ∈ insertBest m p) : q ∈ m ∨ q = p := by
  induction m with
  | nil =>
    simp only [insertBest, List.mem_singleton] at hq
    exact Or.inr hq
  | cons r rest ih =>
    by_cases hr : r.1 = p.1
    · simp only [insertBest, if_pos hr] at hq
      rcases List.mem_cons.mp hq with he | hm
      · by_cases hgt : p.2.score > r.2.score
        · rw [if_pos hgt] at he
          exact Or.inr (by rw [he, hr])
        · rw [if_neg hgt] at he
          exact Or.inl (he ▸ List.mem_cons_self r rest)
      · exact Or.inl (List.mem_cons_of_mem r hm)
    · simp only [insertBest, if_neg hr] at hq
      rcases List.mem_cons.mp hq with he | hm
      · exact Or.inl (he ▸ List.mem_cons_self r rest)
      · rcases ih hm with h | h
        · exact Or.inl (List.mem_cons_of_mem r h)
        · exact Or.inr h

theorem mem_keys_insertBest {m : List (String × Candidate)} {p : String × Candidate}
    {k : String} :
    k ∈ (insertBest m p).map Prod.fst ↔ k ∈ m.map Prod.fst ∨ k = p.1 := by
  induction m with
  | nil => simp [insertBest]
  | cons r rest ih =>
    by_cases hr : r.1 = p.1
    · simp only [insertBest, if_pos hr, List.map_cons, List.mem_cons]
      constructor
      · rintro (h | h)
        · exact Or.inl (Or.inl h)
        · exact Or.inl (Or.inr h)
      · rintro ((h | h) | h)
        · exact Or.inl h
        · exact Or.inr h
        · exact Or.inl (by rw [h, hr])
    · simp only [insertBest, if_neg hr, List.map_cons, List.mem_cons, ih]
      tauto

theorem nodup_keys_insertBest {m : List (String × Candidate)} (p : String × Candidate)
    (h : (m.map Prod.fst).Nodup) : ((insertBest m p).map Prod.fst).Nodup := by
  induction m with
  | nil => simp [insertBest]
  | cons r rest ih =>
    simp only [List.map_cons, List.nodup_cons] at h
    by_cases hr : r.1 = p.1
    · simp only [insertBest, if_pos hr, List.map_cons, List.nodup_cons]
      exact ⟨h.1, h.2⟩
    · simp only [insertBest, if_neg hr, List.map_cons, List.nodup_cons]
      refine ⟨fun hmem => ?_, ih h.2⟩
      rcases mem_keys_insertBest.mp hmem with hm | he
      · exact h.1 hm
      · exact hr he

theorem lookupKey_eq_of_mem {m : List (String × Candidate)} {k : String} {c : Candidate}
    (hnd : (m.map Prod.fst).Nodup) (hmem : (k, c) ∈ m) : lookupKey m k = some c := by
  induction m with
  | nil => cases hmem
  | cons r rest ih =>
    simp only [List.map_cons, List.nodup_cons] at hnd
    rcases List.mem_cons.mp hmem with he | hm
    · rw [← he]
      simp [lookupKey]
    · have hk : ¬r.1 = k := by
        intro h
        exact hnd.1 (h ▸ List.mem_map_of_mem Prod.fst hm)
      simp only [lookupKey, if_neg hk]
      exact ih hnd.2 hm

theorem mem_of_lookupKey {m : List (String × Candidate)} {k : String} {c : Candidate}
    (h : lookupKey m k = some c) : (k, c) ∈ m := by
  induction m with
  | nil => simp [lookupKey] at h
  | cons r rest ih =>
    by_cases hk : r.1 = k
    · simp only [lookupKey, if_pos hk, Option.some.injEq] at h
      have he : (k, c) = r := by rw [← hk, ← h]
      exact he ▸ List.mem_cons_self r rest
    · simp only [lookupKey, if_neg hk] at h
      exact List.mem_cons_of_mem r (ih h)

theorem foldl_insertBest_entry {P : String × Candidate → Prop}
    (ps m : List (String × Candidate)) (hm : ∀ q ∈ m, P q) (hps : ∀ p ∈ ps, P p) :
    ∀ q ∈ ps.foldl insertBest m, P q := by
  induction ps generalizing m with
  | nil => simpa using hm
  | cons p rest ih =>
    intro q hq
    refine ih (insertBest m p) (fun r hr => ?_)
      (fun r hr => hps r (List.mem_cons_of_mem p hr)) q hq
    rcases mem_insertBest hr with h | h
    · exact hm r h
    · exact h ▸ hps p (List.mem_cons_self p rest)

theorem nodup_keys_foldl (ps m : List (String × Candidate))
    (hm : (m.map Prod.fst).Nodup) :
    (((ps.foldl insertBest m)).map Prod.fst).Nodup := by
  induction ps generalizing m with
  | nil => simpa using hm
  | cons p rest ih => exact ih _ (nodup_keys_insertBest p hm)

theorem keys_mono_foldl (ps m : List (String × Candidate)) {k : String}
    (hk : k ∈ m.map Prod.fst) : k ∈ (ps.foldl insertBest m).map Prod.fst := by
  induction ps generalizing m with
  | nil => simpa using hk
  | cons p rest ih => exact ih _ (mem_keys_insertBest.mpr (Or.inl hk))

theorem key_mem_foldl (ps m : List (String × Candidate)) {p : String × Candidate}
    (hp : p ∈ ps) : p.1 ∈ ((ps.foldl insertBest m).map Prod.fst) := by
  induction ps generalizing m with
  | nil => cases hp
  | cons q rest ih =>
    rcases List.mem_cons.mp hp with he | hm
    · subst he
      exact keys_mono_foldl rest _ (mem_keys_insertBest.mpr (Or.inr rfl))
    · exact ih _ hm

theorem lookupKey_isSome_of_mem {m : List (String × Candidate)} {k : String}
    (h : k ∈ m.map Prod.fst) : ∃ c, lookupKey m k = some c := by
  induction m with
  | nil => simp at h
  | cons r rest ih =>
    by_cases hk : r.1 = k
    · exact ⟨r.2, by simp [lookupKey, hk]⟩
    · rcases List.mem_map.mp h with ⟨q, hq, hqk⟩
      rcases List.mem_cons.mp hq with he | hm
      · exact absurd (he ▸ hqk) hk
      · rcases ih (List.mem_map.mpr ⟨q, hm, hqk⟩) with ⟨c, hc⟩
        exact ⟨c, by simp only [lookupKey, if_neg hk, hc]⟩

theorem keyed_fst (cands : List Candidate) :
    ∀ p ∈ keyedCandidates cands, p.1 = normalize_company_name p.2.name := by
  intro p hp
  simp only [keyedCandidates, List.mem_filterMap] at hp
  rcases hp with ⟨c, _, hc⟩
  generalize hn : normalize_company_name (clean_display_name c.name) = n at hc
  split_ifs at hc with h1 h2
  cases hc
  exact hn.symm

theorem normalize_empty : normalize_company_name "" = "" := rfl

/-! ## Claim theorems -/

/-- C1 (counterexample): for the profile `{founded_year: 1990,
employees: 50000, revenue: "US$10 billion (2023)", industry: "cloud
infrastructure software", hq_location: "Bengaluru", description: "",
confidence: 0.8}` the rule-based scorer does NOT yield `age=4` and
`domain≥4` as claimed: at the current year 2026 the age sub-score is 5
(age 36 ≥ 30), and the domain sub-score is 3 (exactly two keyword hits,
"software" and "cloud"), which is below 4. -/
theorem c1_counterexample :
    (compute_weighted_score 2026
        ⟨some 1990, some 50000, some "US$10 billion (2023)",
         some "cloud infrastructure software", some "Bengaluru", some "",
         some (mkRat 4 5)⟩).subscores.map Subscores.age = some 5 ∧
    (compute_weighted_score 2026
        ⟨some 1990, some 50000, some "US$10 billion (2023)",
         some "cloud infrastructure software", some "Bengaluru", some "",
         some (mkRat 4 5)⟩).subscores.map Subscores.domain = some 3 ∧
    ¬((5 : ℤ) = 4 ∧ (4 : ℤ) ≤ 3) := by
  decide

/-- C1 (amended): for that profile the rule-based scorer yields
sub-scores age=5 (at current year 2026), employees=4, financial=4,
founders=0, domain=3, project=4, geo=5, and total 77.0 with label
"Moderate" (the high end of the Moderate band). -/
theorem c1_amended :
    compute_weighted_score 2026
        ⟨some 1990, some 50000, some "US$10 billion (2023)",
         some "cloud infrastructure software", some "Bengaluru", some "",
         some (mkRat 4 5)⟩ =
      { disqualified := false, total_score_0_100 := 77, label := "Moderate",
        reason := none, low_confidence := some false,
        profile_confidence := some (mkRat 4 5),
        subscores := some ⟨5, 4, 4, 0, 3, 4, 5⟩,
        weighted_1_to_5 := some (mkRat 77 20) } := by
  decide

/-- C4: whenever the profile carries a founded year (non-zero, since
Python's falsiness test treats `0` like a missing field) whose age
`current_year - founded_year` is below 1, the scorer short-circuits:
it returns `disqualified=True`, `total_score_0_100=0`, label
"Disqualified" and the age reason, with no sub-scores or confidence
fields computed, regardless of every other profile field. -/
theorem c4_age_disqualifies (cy : Int) (p : Profile) (y : Int)
    (hy : p.founded_year = some y) (hy0 : y ≠ 0) (hage : cy - y < 1) :
    compute_weighted_score cy p =
      { disqualified := true, total_score_0_100 := 0, label := "Disqualified",
        reason := some "Company age < 1 year (auto reject)",
        low_confidence := none, profile_confidence := none,
        subscores := none, weighted_1_to_5 := none } := by
  have hage' : score_age_1_to_5 cy p.founded_year = -1 := by
    rw [hy]
    simp only [score_age_1_to_5, if_neg hy0, if_pos hage]
  simp only [compute_weighted_score, hage']
  rw [if_pos trivial]

theorem c4_age_disqualifies_witness :
    (2026 : Int) - 2026 < 1 ∧
    compute_weighted_score 2026
        ⟨some 2026, some 50000, some "US$10 billion", some "software",
         some "Pune", some "platform work", none⟩ =
      { disqualified := true, total_score_0_100 := 0, label := "Disqualified",
        reason := some "Company age < 1 year (auto reject)",
        low_confidence := none, profile_confidence := none,
        subscores := none, weighted_1_to_5 := none } :=
  ⟨by decide, c4_age_disqualifies 2026 _ 2026 rfl (by decide) (by decide)⟩

/-- C7 (counterexample): the suffix list does not contain every token
"with and without a trailing period": `"llp."` is not stripped (only
`"llp"` is), so `canonicalize("Acme Llp.")` keeps the suffix while
`canonicalize("Acme Llp")` strips it. -/
theorem c7_counterexample :
    normalize_company_name "Acme Llp." = "acme llp." ∧
    ("acme llp." : String) ≠ "acme" ∧
    normalize_company_name "Acme Llp" = "acme" := by
  decide

/-- C7 (amended): `canonicalize` strips a trailing sequence of
legal-entity suffix tokens, iterating from the end so multi-suffix tails
are fully removed, and replaces `&` with "and"; the tokens pvt, ltd,
inc, corp and co are recognized both with and without a trailing period,
while private, limited, llp and company are recognized only without one.
In particular `canonicalize("Acme Pvt. Ltd.") = canonicalize("ACME") =
"acme"` and `canonicalize("A & B Corp") = "a and b"`. -/
theorem c7_amended :
    (normalize_company_name "Acme Pvt" = "acme" ∧
     normalize_company_name "Acme Pvt." = "acme" ∧
     normalize_company_name "Acme Ltd" = "acme" ∧
     normalize_company_name "Acme Ltd." = "acme" ∧
     normalize_company_name "Acme Inc" = "acme" ∧
     normalize_company_name "Acme Inc." = "acme" ∧
     normalize_company_name "Acme Corp" = "acme" ∧
     normalize_company_name "Acme Corp." = "acme" ∧
     normalize_company_name "Acme Co" = "acme" ∧
     normalize_company_name "Acme Co." = "acme" ∧
     normalize_company_name "Acme Private" = "acme" ∧
     normalize_company_name "Acme Limited" = "acme" ∧
     normalize_company_name "Acme Llp" = "acme" ∧
     normalize_company_name "Acme Company" = "acme") ∧
    (normalize_company_name "Acme Pvt Ltd" = "acme" ∧
     normalize_company_name "Acme Pvt. Ltd." = "acme") ∧
    (normalize_company_name "ACME" = "acme" ∧
     normalize_company_name "A & B Corp" = "a and b") := by
  decide

/-- C5 (counterexample): an email whose body contains "Company:
Razorpay" and whose subject matches no noise pattern is NOT necessarily
accepted: with an empty subject and no hiring keyword anywhere, the
classifier falls through every accept rule and rejects with
"no_lead_signals". -/
theorem c5_counterexample :
    strContains "Company: Razorpay" "Company: Razorpay" = true ∧
    EXCLUDE_SUBJECT_PATTERNS.all (fun p => !wordSearch p.1 (lowerL "".toList)) = true ∧
    (is_lead_email "" "Company: Razorpay" none).should_process = false := by
  decide

/-- C5 (amended): an email whose body contains the label line
`Company: Razorpay` together with a primary hiring keyword, whose
subject matches no noise pattern and whose sender is not an aggregator,
is accepted, and `extract_company_candidates` returns the candidate
"Razorpay" with weight 9 as the top entry, ranked above the
domain-derived candidate (weight 4) from the same email. -/
theorem c5_amended :
    (is_lead_email "hiring update"
        "Company: Razorpay\nApply: https://careers.example.com/x" none).should_process
        = true ∧
    extract_company_candidates "hiring update"
        "Company: Razorpay\nApply: https://careers.example.com/x" none =
      [⟨"Razorpay", 9, "body_pattern:0"⟩,
       ⟨"Example", 4, "domain:careers.example.com"⟩] := by
  decide

/-- C6 (counterexample): a subject merely containing "OTP" is not always
rejected: the pattern is `\botp\b` with word boundaries, so the subject
"OTPS" (where "otp" is followed by a word character) slips through, and
the body keyword "internship" then gets the email accepted. -/
theorem c6_counterexample :
    strContains "OTPS" "OTP" = true ∧
    (is_lead_email "OTPS" "internship" none).should_process = true := by
  decide

/-- C6 (amended): any subject containing "otp" as a whole word
(case-insensitively, with `\b` word boundaries on both sides) is
rejected by the relevance classifier, regardless of body content and
sender address. -/
theorem c6_whole_word_otp (s b : String) (f : Option String)
    (h : wordSearch "otp" (lowerL s.toList) = true) :
    (is_lead_email s b f).should_process = false := by
  simp only [is_lead_email]
  rcases hf : EXCLUDE_SUBJECT_PATTERNS.find?
      (fun p => wordSearch p.1 (lowerL s.toList)) with _ | val
  · exact absurd h (List.find?_eq_none.mp hf ("otp", "\\botp\\b") (by decide))
  · rw [hf]

theorem c6_whole_word_otp_witness :
    wordSearch "otp" (lowerL "Your OTP code".toList) = true ∧
    (is_lead_email "Your OTP code" "we are hiring" none).should_process = false :=
  ⟨by decide, c6_whole_word_otp "Your OTP code" "we are hiring" none (by decide)⟩

/-- C2 (counterexample): a missing service configuration is NOT a hard
error that reaches the caller. `get_llm_config` does raise eagerly
inside `extract_with_llm`, but the per-email wrapper `_try_llm_extract`
catches it like any other failure: with extraction enabled and no
`LLM_BASE_URL`, the caller receives the silent no-escalation triple
`(None, None, None)`, indistinguishable from a network failure. -/
theorem c2_counterexample :
    llmEnabled ⟨some "1", none, some "m", none⟩ = true ∧
    extract_with_llm ⟨some "1", none, some "m", none⟩ (Except.ok "") "s" "b" none =
      Except.error (LlmFailure.configError
        "Missing LLM_BASE_URL or LLM_MODEL in environment/.env") ∧
    tryLlmExtract ⟨some "1", none, some "m", none⟩ (Except.ok "") "s" "b" none =
      (none, none, none) :=
  ⟨by decide, by rfl, by rfl⟩

/-- C2 (amended): when model-based extraction is enabled, every failure
of the escalation step degrades silently to no escalation. A missing
service configuration (endpoint or model identifier) raises eagerly
inside `extract_with_llm` at the point the feature is invoked, but the
per-email wrapper `_try_llm_extract` swallows it — exactly as it
swallows network failures — so no error ever reaches the caller. -/
theorem c2_amended (env : PyEnv) (chat : Except Unit String) (s b : String)
    (f : Option String) :
    (∀ m, get_llm_config env = Except.error m →
      extract_with_llm env chat s b f = Except.error (LlmFailure.configError m) ∧
      tryLlmExtract env chat s b f = (none, none, none)) ∧
    (chat = Except.error () → tryLlmExtract env chat s b f = (none, none, none)) := by
  constructor
  · intro m hm
    refine ⟨by simp [extract_with_llm, hm], ?_⟩
    by_cases he : llmEnabled env <;>
      simp [tryLlmExtract, extract_with_llm, hm, he]
  · intro hc
    rcases hcfg : get_llm_config env with m | cfg <;>
      by_cases he : llmEnabled env <;>
        simp [tryLlmExtract, extract_with_llm, hcfg, he, hc]

theorem c2_amended_witness :
    tryLlmExtract ⟨some "1", some "http://x", some "m", none⟩ (Except.error ())
      "s" "b" none = (none, none, none) :=
  (c2_amended ⟨some "1", some "http://x", some "m", none⟩ (Except.error ())
    "s" "b" none).2 rfl

/-- C3: for every email accepted by the relevance classifier, the
coordinator's escalation flag is set exactly when no heuristic candidate
was found, or the heuristic confidence is below 0.60, or the top
candidate's cleaned name canonicalizes to an empty identity key; and
when the confidence is ≥ 0.60 with a non-empty identity key, the model
service is never invoked, whatever the environment configuration. -/
theorem c3_escalation (s b : String) (f : Option String)
    (haccept : (is_lead_email s b f).should_process = true) :
    (needs_llm_decision (pick_best_company s b f).1 (pick_best_company s b f).2.1 = true ↔
      ((pick_best_company s b f).1 = none ∨
       (∃ c, (pick_best_company s b f).2.1 = some c ∧ c < mkRat 3 5) ∨
       (∃ n, (pick_best_company s b f).1 = some n ∧ normalize_company_name n = ""))) ∧
    (∀ n c, (pick_best_company s b f).1 = some n →
      (pick_best_company s b f).2.1 = some c →
      mkRat 3 5 ≤ c → normalize_company_name n ≠ "" →
      ∀ env, llm_service_invoked env s b f = false) := by
  constructor
  · rcases hx : extract_company_candidates s b f with _ | ⟨top, rest⟩
    · simp [pick_best_company, hx, needs_llm_decision]
    · simp only [pick_best_company, hx]
      by_cases hn : top.name = ""
      · simp [needs_llm_decision, hn, normalize_empty, hn ▸ normalize_empty]
      · simp only [needs_llm_decision, if_neg hn, Option.some.injEq]
        by_cases hc : qMin (mkRat 19 20) (qMax (mkRat 2 5) (mkRat top.score 10)) < mkRat 3 5
        · simp [hc]
        · simp only [if_neg hc]
          by_cases hz : normalize_company_name top.name = ""
          · simp [hz]
          · simp [hz, hc]
  · intro n c hn hc hge hne env
    have hn' : n ≠ "" := fun h => hne (by rw [h, normalize_empty])
    have hneeds : needs_llm_decision (pick_best_company s b f).1
        (pick_best_company s b f).2.1 = false := by
      rw [hn, hc]
      simp only [needs_llm_decision, if_neg hn', if_neg (not_lt.mpr hge)]
      exact decide_eq_false hne
    simp only [llm_service_invoked, haccept, Bool.not_true, Bool.false_eq_true,
      if_false, hneeds]

theorem c3_escalation_witness :
    (is_lead_email "hiring" "Company: Razorpay" none).should_process = true ∧
    (∀ env, llm_service_invoked env "hiring" "Company: Razorpay" none = false) :=
  ⟨by decide, fun env =>
    (c3_escalation "hiring" "Company: Razorpay" none (by decide)).2 "Razorpay"
      (mkRat 9 10) (by decide) (by decide) (by decide) (by decide) env⟩

/-- C9 (counterexample): the agent does NOT locate the first
brace-delimited JSON object: the regex `\{.*\}` (DOTALL, greedy) spans
from the first `{` to the LAST `}`. On a response carrying a valid
object followed by prose with another brace pair, the span is the whole
stretch, its parse fails, and `_safe_json_parse` returns nothing even
though the first brace-delimited object in the text parses fine. -/
theorem c9_counterexample :
    strContains "ok \x7b\"a\": 1\x7d and \x7b\"b\": 2\x7d" "\x7b\"a\": 1\x7d" = true ∧
    jsonParse "\x7b\"a\": 1\x7d" = some (Json.jobj [("a", Json.jnum 1)]) ∧
    safeJsonParse "ok \x7b\"a\": 1\x7d and \x7b\"b\": 2\x7d" = none :=
  ⟨by decide, by rfl, by rfl⟩

/-- C9 (amended): for every raw model-response text, the agent's parsing
never raises: it takes the maximal brace-delimited span (first `{` to
last `}`), treats any parse failure or malformed shape as no result
(`is_lead=false`, no company, no links, zero confidence), clamps the
reported confidence into `[0, 1]`, and coerces `source_links` to a list
of strings, dropping non-list values and falsy entries. -/
theorem c9_defensive_parsing (raw : String) :
    (safeJsonParse raw =
      (if pyStripL raw.toList = [] then none
       else (braceSpanL (pyStripL raw.toList)).bind
         (fun span => jsonParse (String.mk span)))) ∧
    (0 ≤ (extractionFromRaw raw).confidence ∧ (extractionFromRaw raw).confidence ≤ 1) ∧
    (safeJsonParse raw = none →
      (extractionFromRaw raw).is_lead = false ∧
      (extractionFromRaw raw).company_name = none ∧
      (extractionFromRaw raw).source_links = [] ∧
      (extractionFromRaw raw).confidence = 0) ∧
    (∀ s, s ∈ (extractionFromRaw raw).source_links →
      ∃ v, v ∈ sourceLinksList raw ∧ jsonTruthy v = true ∧ s = pyStr v) ∧
    ((∀ xs, (pyDictGet (dataFields raw) "source_links").getD Json.jnull ≠ Json.jarr xs) →
      (extractionFromRaw raw).source_links = []) := by
  refine ⟨?_, ?_, ?_, ?_, ?_⟩
  · simp only [safeJsonParse]
    by_cases ht : pyStripL raw.toList = []
    · rw [if_pos ht, if_pos ht]
    · rw [if_neg ht, if_neg ht]
      rcases hb : braceSpanL (pyStripL raw.toList) with _ | span <;> rfl
  · constructor
    · simp only [extractionFromRaw, qMax_eq, qMin_eq]
      exact le_max_left 0 _
    · simp only [extractionFromRaw, qMax_eq, qMin_eq]
      exact max_le (by norm_num) (min_le_left 1 _)
  · intro hnone
    have hdf : dataFields raw = [] := by simp [dataFields, hnone]
    refine ⟨?_, ?_, ?_, ?_⟩ <;> simp only [extractionFromRaw, hdf] <;> rfl
  · intro s hs
    simp only [extractionFromRaw] at hs
    rcases hv : (pyDictGet (dataFields raw) "source_links").getD Json.jnull with
        _ | bb | q | st | xs | fs <;> rw [hv] at hs
    case jarr =>
      rcases List.mem_map.mp hs with ⟨v, hvmem, hvs⟩
      rcases List.mem_filter.mp hvmem with ⟨hvx, hvt⟩
      exact ⟨v, by simp [sourceLinksList, hv, hvx], hvt, hvs.symm⟩
    all_goals exact absurd hs (List.not_mem_nil s)
  · intro hnot
    rcases hv : (pyDictGet (dataFields raw) "source_links").getD Json.jnull with
        _ | bb | q | st | xs | fs
    case jarr => exact absurd hv (hnot xs)
    all_goals simp only [extractionFromRaw, hv]

theorem c9_defensive_parsing_witness :
    (0 ≤ (extractionFromRaw
        "\x7b\"is_lead\": true, \"confidence\": 2, \"source_links\": [\"x\", \"\", 0]\x7d").confidence ∧
      (extractionFromRaw
        "\x7b\"is_lead\": true, \"confidence\": 2, \"source_links\": [\"x\", \"\", 0]\x7d").confidence ≤ 1) ∧
    (extractionFromRaw
        "\x7b\"is_lead\": true, \"confidence\": 2, \"source_links\": [\"x\", \"\", 0]\x7d").confidence = 1 ∧
    (extractionFromRaw
        "\x7b\"is_lead\": true, \"confidence\": 2, \"source_links\": [\"x\", \"\", 0]\x7d").source_links = ["x"] :=
  ⟨(c9_defensive_parsing
      "\x7b\"is_lead\": true, \"confidence\": 2, \"source_links\": [\"x\", \"\", 0]\x7d").2.1,
   by rfl, by decide⟩

/-- C10: for every profile that is not age-disqualified,
`compute_weighted_score` returns a total in `[0, 100]`, and its
`disqualified` flag is true exactly when the label is "Disqualified",
i.e. exactly when the total is below 40 — a merely low weighted score
also marks the company disqualified, not only the age sentinel. -/
theorem c10_invariants (cy : Int) (p : Profile)
    (h : score_age_1_to_5 cy p.founded_year ≠ -1) :
    (0 ≤ (compute_weighted_score cy p).total_score_0_100 ∧
      (compute_weighted_score cy p).total_score_0_100 ≤ 100) ∧
    ((compute_weighted_score cy p).disqualified = true ↔
      (compute_weighted_score cy p).label = "Disqualified") ∧
    ((compute_weighted_score cy p).disqualified = true ↔
      (compute_weighted_score cy p).total_score_0_100 < 40) := by
  obtain ⟨ha0, ha5⟩ := score_age_range cy p.founded_year h
  obtain ⟨he0, he5⟩ := score_employees_range p.employees
  obtain ⟨hf0, hf5⟩ := score_financial_range p.revenue
  obtain ⟨hd0, hd5⟩ := score_domain_range p.industry p.description
  obtain ⟨hp0, hp5⟩ := score_project_range p.industry p.description
  obtain ⟨hg0, hg5⟩ := score_geo_range p.hq_location
  set A := score_age_1_to_5 cy p.founded_year with hA
  set E := score_employees_1_to_5 p.employees with hE
  set F := score_financial_stability_1_to_5 p.revenue with hF
  set D := score_domain_relevance_1_to_5 p.industry p.description with hD
  set PJ := score_project_quality_1_to_5 p.industry p.description with hPJ
  set G := score_geo_1_to_5 p.hq_location with hG
  set W : ℚ := qAdd (qAdd (qAdd (qAdd (qAdd (qAdd
      (qMul (A : ℚ) (mkRat 1 10)) (qMul (E : ℚ) (mkRat 1 10)))
      (qMul (F : ℚ) (mkRat 1 10)))
      (qMul ((score_founders_profile_1_to_5 : ℤ) : ℚ) (mkRat 1 20)))
      (qMul (D : ℚ) (mkRat 1 4))) (qMul (PJ : ℚ) (mkRat 1 5)))
      (qMul (G : ℚ) (mkRat 1 5)) with hW
  set T : ℚ := roundTo 2 (qMul (qDiv W 5) 100) with hT
  have hcw : compute_weighted_score cy p =
      { disqualified := decide
          ((if (80 : ℚ) ≤ T then "Strong" else if (60 : ℚ) ≤ T then "Moderate"
            else if (40 : ℚ) ≤ T then "Weak" else "Disqualified") = "Disqualified"),
        total_score_0_100 := T,
        label := (if (80 : ℚ) ≤ T then "Strong" else if (60 : ℚ) ≤ T then "Moderate"
                  else if (40 : ℚ) ≤ T then "Weak" else "Disqualified"),
        reason := none,
        low_confidence := some (decide (p.confidence.getD 0 < mkRat 3 5)),
        profile_confidence := some (p.confidence.getD 0),
        subscores := some ⟨A, E, F, score_founders_profile_1_to_5, D, PJ, G⟩,
        weighted_1_to_5 := some (roundTo 3 W) } := by
    simp only [compute_weighted_score]
    rw [if_neg h]
  set N : ℤ := A * 2 + E * 2 + F * 2 + score_founders_profile_1_to_5 +
      D * 5 + PJ * 4 + G * 4 with hN
  have hTN : T = ((N : ℤ) : ℚ) := by
    rw [hT, hW, weightedTotal_eq, roundTo_intCast, ← hN]
  have hfo : score_founders_profile_1_to_5 = 0 := rfl
  have hN0 : (0 : ℤ) ≤ N := by rw [hN]; omega
  have hN100 : N ≤ (100 : ℤ) := by rw [hN]; omega
  have htotal : (compute_weighted_score cy p).total_score_0_100 = ((N : ℤ) : ℚ) := by
    rw [hcw]; exact hTN
  refine ⟨⟨?_, ?_⟩, ?_, ?_⟩
  · rw [htotal]; exact_mod_cast hN0
  · rw [htotal]; exact_mod_cast hN100
  · rw [hcw]
    simp only [decide_eq_true_iff]
  · have hdisq : (compute_weighted_score cy p).disqualified =
        decide ((if (80 : ℚ) ≤ T then "Strong" else if (60 : ℚ) ≤ T then "Moderate"
                 else if (40 : ℚ) ≤ T then "Weak" else "Disqualified") = "Disqualified") := by
      rw [hcw]
    have hc80 : ((80 : ℚ) ≤ T) ↔ ((80 : ℤ) ≤ N) := by rw [hTN]; exact_mod_cast Iff.rfl
    have hc60 : ((60 : ℚ) ≤ T) ↔ ((60 : ℤ) ≤ N) := by rw [hTN]; exact_mod_cast Iff.rfl
    have hc40 : ((40 : ℚ) ≤ T) ↔ ((40 : ℤ) ≤ N) := by rw [hTN]; exact_mod_cast Iff.rfl
    have hlt40 : ((compute_weighted_score cy p).total_score_0_100 < 40) ↔ (N < 40) := by
      rw [htotal]; exact_mod_cast Iff.rfl
    rw [hdisq, hlt40]
    simp only [decide_eq_true_iff]
    by_cases h1 : (80 : ℤ) ≤ N
    · rw [if_pos (hc80.mpr h1)]
      constructor
      · intro hs; exact absurd hs (by decide)
      · intro hlt; omega
    · rw [if_neg (fun hh => h1 (hc80.mp hh))]
      by_cases h2 : (60 : ℤ) ≤ N
      · rw [if_pos (hc60.mpr h2)]
        constructor
        · intro hs; exact absurd hs (by decide)
        · intro hlt; omega
      · rw [if_neg (fun hh => h2 (hc60.mp hh))]
        by_cases h3 : (40 : ℤ) ≤ N
        · rw [if_pos (hc40.mpr h3)]
          constructor
          · intro hs; exact absurd hs (by decide)
          · intro hlt; omega
        · rw [if_neg (fun hh => h3 (hc40.mp hh))]
          constructor
          · intro _; omega
          · intro _; rfl

theorem c10_invariants_witness :
    score_age_1_to_5 2026 (Profile.mk none none none none none none none).founded_year ≠ -1 ∧
    (0 ≤ (compute_weighted_score 2026 ⟨none, none, none, none, none, none, none⟩).total_score_0_100 ∧
      (compute_weighted_score 2026 ⟨none, none, none, none, none, none, none⟩).total_score_0_100 ≤ 100) ∧
    ((compute_weighted_score 2026 ⟨none, none, none, none, none, none, none⟩).disqualified = true ↔
      (compute_weighted_score 2026 ⟨none, none, none, none, none, none, none⟩).label = "Disqualified") ∧
    ((compute_weighted_score 2026 ⟨none, none, none, none, none, none, none⟩).disqualified = true ↔
      (compute_weighted_score 2026 ⟨none, none, none, none, none, none, none⟩).total_score_0_100 < 40) :=
  ⟨by decide, c10_invariants 2026 ⟨none, none, none, none, none, none, none⟩ (by decide)⟩

/-- C8: for every subject, body and sender address, the candidate list
returned by the extractor (i) contains no two candidates whose display
names canonicalize to the same identity key, (ii) is sorted in
descending order of weight, (iii) for each identity key retains exactly
the fold `bestOf` of that key's candidates — the highest-weighted one,
keeping the first-encountered one on weight ties (the fold replaces the
stored candidate only on a strictly greater score) — and (iv) keeps one
candidate for every identity key that survives the empty/stop-list
filter. -/
theorem c8_dedup_sorted (subject body : String) (fromEmail : Option String) :
    (extract_company_candidates subject body fromEmail).Pairwise
      (fun a b => normalize_company_name a.name ≠ normalize_company_name b.name) ∧
    (extract_company_candidates subject body fromEmail).Sorted candGe ∧
    (∀ c ∈ extract_company_candidates subject body fromEmail,
      bestOf (sameKeyCands (keyedCandidates (rawCandidates subject body fromEmail))
        (normalize_company_name c.name)) = some c) ∧
    (∀ p ∈ keyedCandidates (rawCandidates subject body fromEmail),
      ∃ c ∈ extract_company_candidates subject body fromEmail,
        normalize_company_name c.name = p.1) := by
  have hperm : List.Perm (extract_company_candidates subject body fromEmail)
      (((keyedCandidates (rawCandidates subject body fromEmail)).foldl insertBest []).map
        Prod.snd) :=
    List.perm_insertionSort candGe _
  set ps := keyedCandidates (rawCandidates subject body fromEmail) with hps
  set m := ps.foldl insertBest [] with hm
  have hnd : (m.map Prod.fst).Nodup := nodup_keys_foldl ps [] (by simp)
  have hinv : ∀ q ∈ m, q.1 = normalize_company_name q.2.name :=
    foldl_insertBest_entry ps [] (by simp) (keyed_fst _)
  refine ⟨?_, ?_, ?_, ?_⟩
  · have h1 : m.Pairwise (fun p q => p.1 ≠ q.1) := List.pairwise_map.mp hnd
    have h2 : m.Pairwise (fun p q =>
        normalize_company_name p.2.name ≠ normalize_company_name q.2.name) :=
      List.Pairwise.imp_of_mem
        (fun {p q} hp hq hne => by rw [← hinv p hp, ← hinv q hq]; exact hne) h1
    have h3 : (m.map Prod.snd).Pairwise (fun a b =>
        normalize_company_name a.name ≠ normalize_company_name b.name) :=
      List.pairwise_map.mpr h2
    exact (hperm.pairwise_iff (fun h => h.symm)).mpr h3
  · exact List.sorted_insertionSort candGe _
  · intro c hc
    rcases List.mem_map.mp (hperm.mem_iff.mp hc) with ⟨p, hpm, hpc⟩
    have hk : p.1 = normalize_company_name c.name := by rw [← hpc]; exact hinv p hpm
    have hl : lookupKey m p.1 = some p.2 := lookupKey_eq_of_mem hnd hpm
    have hfold := lookupKey_foldl ps [] p.1
    rw [← hm] at hfold
    rw [hl, hpc] at hfold
    rw [← hk]
    exact hfold.symm
  · intro p hp
    have hkey : p.1 ∈ m.map Prod.fst := key_mem_foldl ps [] hp
    rcases lookupKey_isSome_of_mem hkey with ⟨c, hcl⟩
    have hcm : (p.1, c) ∈ m := mem_of_lookupKey hcl
    exact ⟨c, hperm.mem_iff.mpr (List.mem_map.mpr ⟨(p.1, c), hcm, rfl⟩),
      (hinv _ hcm).symm⟩

theorem c8_dedup_sorted_witness :
    extract_company_candidates "hiring" "Company: Acme Pvt Ltd" none =
      [⟨"Acme Pvt Ltd", 9, "body_pattern:0"⟩] ∧
    (extract_company_candidates "hiring" "Company: Acme Pvt Ltd" none).Pairwise
      (fun a b => normalize_company_name a.name ≠ normalize_company_name b.name) ∧
    (extract_company_candidates "hiring" "Company: Acme Pvt Ltd" none).Sorted candGe :=
  ⟨by decide, (c8_dedup_sorted "hiring" "Company: Acme Pvt Ltd" none).1,
   (c8_dedup_sorted "hiring" "Company: Acme Pvt Ltd" none).2.1⟩

end LeadAnalysis
